import Mathlib

/-!
Verification model of the awx-k8s-operator reconciliation core.

The Go source manipulates untyped JSON field bags (map[string]interface\x7b\x7d);
we embed them as association lists of JSON-like values.  Remote HTTP calls made
by the AWX client are abstracted into an environment of pure functions
(`AwxEnv`); every manager operation additionally emits the list of remote
operations (`AwxOp`) it performed, so that frame properties about which remote
objects are touched can be stated and proved.
-/

namespace AWX

/-- JSON-like value: the shallow embedding of a Go `interface` value decoded
from JSON.  `num` models `float64` (JSON numbers whose integral value is what
the code extracts), `str` models `string`, `boolean` models `bool`. -/
inductive JVal where
  | num (n : Int)
  | str (s : String)
  | boolean (b : Bool)
  | null
  | arr (elems : List JVal)
  | obj (fields : List (String × JVal))

/-- A remote object: the embedding of Go `map[string]interface\x7b\x7d` as an
association list (at most one binding per key in all states we build). -/
abbrev Obj := List (String × JVal)

/-- Lookup of a key in an association list, the embedding of Go map read. -/
def lookupKey {α : Type} : List (String × α) → String → Option α
  | [], _ => none
  | (k2, v) :: rest, k => if k2 = k then some v else lookupKey rest k

/-- Set a key in an association list (replace the first binding or append),
the embedding of Go map write. -/
def setKey {α : Type} : List (String × α) → String → α → List (String × α)
  | [], k, v => [(k, v)]
  | (k2, v2) :: rest, k, v =>
    if k2 = k then (k, v) :: rest else (k2, v2) :: setKey rest k v

/-- The Go string type assertion `o[k].(string)`: `some s` iff the key is
present and holds a string. -/
def getStr (o : Obj) (k : String) : Option String :=
  match lookupKey o k with
  | some (JVal.str s) => some s
  | _ => none

/-- `getObjectID` from pkg/awx (helpers): extract the numeric id of a remote
object.  A JSON number (Go `float64`) is truncated to an integer, a string is
parsed, anything else is an error. -/
def getObjectID (o : Obj) : Except String Int :=
  match lookupKey o "id" with
  | none => Except.error "object has no ID field"
  | some (JVal.num n) => Except.ok n
  | some (JVal.str s) =>
    match s.toInt? with
    | some n => Except.ok n
    | none => Except.error "invalid id string"
  | some _ => Except.error "unexpected ID type"

/-- PATCH semantics of `UpdateObject`: the supplied fields overwrite the
object's current fields, all other fields are kept. -/
def mergeObj (base : Obj) (data : Obj) : Obj :=
  data.foldl (fun acc kv => setKey acc kv.1 kv.2) base

/-- `ProjectSpec` from api/v1alpha1. -/
structure ProjectSpec where
  name : String
  description : String
  scmType : String
  scmUrl : String
  scmBranch : String
  scmCredential : String

/-- `HostSpec` from api/v1alpha1. -/
structure HostSpec where
  name : String
  description : String
  vars : String

/-- `InventorySpec` from api/v1alpha1. -/
structure InventorySpec where
  name : String
  description : String
  vars : String
  hosts : List HostSpec

/-- `JobTemplateSpec` from api/v1alpha1. -/
structure JobTemplateSpec where
  name : String
  description : String
  projectName : String
  inventoryName : String
  playbook : String
  extraVars : String

/-- The part of `AWXInstanceSpec` the reconciliation core reads. -/
structure AWXInstanceSpec where
  externalInstance : Bool
  projects : List ProjectSpec
  inventories : List InventorySpec
  jobTemplates : List JobTemplateSpec

/-- One remote API operation performed by the client, recorded for frame
reasoning.  `find` is `FindObjectByName`, `list` is `ListObjects`, the others
are the corresponding `Client` methods. -/
inductive AwxOp where
  | find (endpoint name : String)
  | list (endpoint : String)
  | getObj (endpoint : String) (id : Int)
  | create (endpoint : String) (data : Obj)
  | update (endpoint : String) (id : Int) (data : Obj)
  | delete (endpoint : String) (id : Int)

/-- The endpoint an operation addresses. -/
def opEndpoint : AwxOp → String
  | AwxOp.find e _ => e
  | AwxOp.list e => e
  | AwxOp.getObj e _ => e
  | AwxOp.create e _ => e
  | AwxOp.update e _ _ => e
  | AwxOp.delete e _ => e

/-- Whether an operation is a delete. -/
def isDeleteOp : AwxOp → Bool
  | AwxOp.delete _ _ => true
  | _ => false

/-- Whether an operation is a create. -/
def isCreateOp : AwxOp → Bool
  | AwxOp.create _ _ => true
  | _ => false

/-- Whether an operation is an update. -/
def isUpdateOp : AwxOp → Bool
  | AwxOp.update _ _ _ => true
  | _ => false

/-- The remote API as seen by the managers: each `Client` method is a pure
function from its arguments to its outcome.  `FindObjectByName` returning
`Except.ok none` models the nil, nil "not found" result. -/
structure AwxEnv where
  FindObjectByName : String → String → Except String (Option Obj)
  ListObjects : String → Except String (List Obj)
  GetObject : String → Int → Except String Obj
  CreateObject : String → Obj → Except String Obj
  UpdateObject : String → Int → Obj → Except String Obj
  DeleteObject : String → Int → Except String Unit

/-! ### Client.CreateObject response handling (pkg/awx/client.go)

`clientCreateObject` models what `CreateObject` does with a 2xx response body
that has already been parsed into a map: take the object directly if it has an
id; otherwise, when the body is a results collection, look for a name match,
then retry with a separate filtered list request (`secondaryFind`), and fall
back to the first element of the collection. -/

/-- The final fallback of `CreateObject`: take the first element of the
original results array if it is an object, otherwise fail. -/
def firstResultFallback (results : List JVal) : Except String Obj :=
  match results with
  | JVal.obj o :: _ => Except.ok o
  | _ => Except.error "could not find created object in API response"

/-- `CreateObject` response handling from pkg/awx/client.go: `data` is the
request body, `respParsed` the parsed 2xx response, `secondaryFind` the outcome
of the separate `ListObjects(endpoint, name filter)` request it may issue. -/
def clientCreateObject (secondaryFind : Except String (List Obj)) (data : Obj)
    (respParsed : Obj) : Except String Obj :=
  if (lookupKey respParsed "id").isSome then Except.ok respParsed
  else
    match lookupKey respParsed "results" with
    | some (JVal.arr results) =>
      if results.length > 0 then
        match getStr data "name" with
        | some objectName =>
          match results.find? (fun item =>
            match item with
            | JVal.obj o => getStr o "name" = some objectName
            | _ => false) with
          | some (JVal.obj o) => Except.ok o
          | _ =>
            match secondaryFind with
            | Except.ok (obj0 :: _) => Except.ok obj0
            | _ => firstResultFallback results
        | none => firstResultFallback results
      else Except.error "unexpected API response format"
    | _ => Except.error "unexpected API response format"

/-! ### Project manager (pkg/awx/projects.go) -/

/-- `IsProjectInDesiredState`: field-by-field comparison of a remote project
against its spec.  Note: when the remote credential relation is not an
embedded object (for example a bare numeric id) the source returns false
without fetching the credential. -/
def IsProjectInDesiredState (project : Obj) (ps : ProjectSpec) : Bool :=
  if getStr project "name" ≠ some ps.name then false
  else if getStr project "description" ≠ some ps.description then false
  else if getStr project "scm_type" ≠ some ps.scmType then false
  else if ps.scmType ≠ "manual" ∧ ps.scmUrl ≠ "" ∧ getStr project "scm_url" ≠ some ps.scmUrl then
    false
  else if ps.scmBranch ≠ "" ∧ getStr project "scm_branch" ≠ some ps.scmBranch then false
  else if ps.scmCredential ≠ "" then
    match lookupKey project "credential" with
    | none => false
    | some (JVal.obj credentialFields) =>
      getStr credentialFields "name" = some ps.scmCredential
    | some _ => false
  else true

/-- The unconditional fields `EnsureProject` writes. -/
def projectBaseData (ps : ProjectSpec) : Obj :=
  [("name", JVal.str ps.name),
   ("description", JVal.str ps.description),
   ("scm_type", JVal.str ps.scmType),
   ("organization", JVal.num 1),
   ("local_path", JVal.str ""),
   ("scm_refspec", JVal.str ""),
   ("scm_clean", JVal.boolean false),
   ("scm_track_submodules", JVal.boolean false),
   ("scm_delete_on_update", JVal.boolean false),
   ("credential", JVal.null),
   ("timeout", JVal.num 0),
   ("scm_update_on_launch", JVal.boolean false),
   ("scm_update_cache_timeout", JVal.num 0),
   ("allow_override", JVal.boolean false),
   ("default_environment", JVal.null),
   ("signature_validation_credential", JVal.null)]

/-- `EnsureProject` field mapping including the conditional scm_url and
scm_branch fields (default branch "main" for non-manual SCM). -/
def projectDataFields (ps : ProjectSpec) : Obj :=
  let d := projectBaseData ps
  let d :=
    if ps.scmType ≠ "manual" ∧ ps.scmUrl ≠ "" then setKey d "scm_url" (JVal.str ps.scmUrl)
    else d
  if ps.scmBranch ≠ "" then setKey d "scm_branch" (JVal.str ps.scmBranch)
  else if ps.scmType ≠ "manual" then setKey d "scm_branch" (JVal.str "main")
  else d

/-- The SCM credential phase of `EnsureProject`: a lookup error fails the
ensure, a not-found credential (or one without an id field) is tolerated by
leaving the field unset. -/
def resolveProjectCredential (env : AwxEnv) (ps : ProjectSpec) (d : Obj) :
    List AwxOp × Except String Obj :=
  if ps.scmCredential = "" then ([], Except.ok d)
  else
    match env.FindObjectByName "credentials" ps.scmCredential with
    | Except.error e =>
      ([AwxOp.find "credentials" ps.scmCredential],
       Except.error ("failed to find SCM credential: " ++ e))
    | Except.ok none => ([AwxOp.find "credentials" ps.scmCredential], Except.ok d)
    | Except.ok (some credential) =>
      match lookupKey credential "id" with
      | some credentialID =>
        ([AwxOp.find "credentials" ps.scmCredential],
         Except.ok (setKey d "credential" credentialID))
      | none => ([AwxOp.find "credentials" ps.scmCredential], Except.ok d)

/-- `EnsureProject`: look up by name, then create (verifying the result has an
id) or update with the full field mapping. -/
def EnsureProject (env : AwxEnv) (ps : ProjectSpec) : List AwxOp × Except String Obj :=
  match env.FindObjectByName "projects" ps.name with
  | Except.error e =>
    ([AwxOp.find "projects" ps.name],
     Except.error ("failed to check if project exists: " ++ e))
  | Except.ok projectOpt =>
    match resolveProjectCredential env ps (projectDataFields ps) with
    | (tr, Except.error e) => (AwxOp.find "projects" ps.name :: tr, Except.error e)
    | (tr, Except.ok projectData) =>
      match projectOpt with
      | none =>
        match env.CreateObject "projects" projectData with
        | Except.error e =>
          (AwxOp.find "projects" ps.name :: (tr ++ [AwxOp.create "projects" projectData]),
           Except.error ("failed to create project: " ++ e))
        | Except.ok project =>
          if (lookupKey project "id").isSome then
            (AwxOp.find "projects" ps.name :: (tr ++ [AwxOp.create "projects" projectData]),
             Except.ok project)
          else
            (AwxOp.find "projects" ps.name :: (tr ++ [AwxOp.create "projects" projectData]),
             Except.error "created project has no ID field")
      | some project =>
        match getObjectID project with
        | Except.error e =>
          (AwxOp.find "projects" ps.name :: tr,
           Except.error
             ("failed to get ID from existing project " ++ ps.name ++ ": " ++ e))
        | Except.ok id =>
          match env.UpdateObject "projects" id projectData with
          | Except.error e =>
            (AwxOp.find "projects" ps.name :: (tr ++ [AwxOp.update "projects" id projectData]),
             Except.error ("failed to update project: " ++ e))
          | Except.ok project2 =>
            (AwxOp.find "projects" ps.name :: (tr ++ [AwxOp.update "projects" id projectData]),
             Except.ok project2)

/-- `DeleteProject`: look up by name; absent is a successful no-op, otherwise
delete by id. -/
def DeleteProject (env : AwxEnv) (name : String) : List AwxOp × Except String Unit :=
  match env.FindObjectByName "projects" name with
  | Except.error e =>
    ([AwxOp.find "projects" name],
     Except.error ("failed to check if project exists: " ++ e))
  | Except.ok none => ([AwxOp.find "projects" name], Except.ok ())
  | Except.ok (some project) =>
    match getObjectID project with
    | Except.error e =>
      ([AwxOp.find "projects" name], Except.error ("failed to get project ID: " ++ e))
    | Except.ok id =>
      match env.DeleteObject "projects" id with
      | Except.error e =>
        ([AwxOp.find "projects" name, AwxOp.delete "projects" id],
         Except.error ("failed to delete project " ++ name ++ ": " ++ e))
      | Except.ok _ =>
        ([AwxOp.find "projects" name, AwxOp.delete "projects" id], Except.ok ())

/-! ### Inventory manager (pkg/awx/inventories.go) -/

/-- `isHostInDesiredState`: name and description must match; variables only
gate the comparison when the spec declares them non-empty. -/
def isHostInDesiredState (host : Obj) (hs : HostSpec) : Bool :=
  if getStr host "name" ≠ some hs.name then false
  else if getStr host "description" ≠ some hs.description then false
  else if hs.vars ≠ "" ∧ getStr host "variables" ≠ some hs.vars then false
  else true

/-- The related-hosts endpoint for an inventory. -/
def hostsEndpoint (inventoryID : Int) : String :=
  "inventories/" ++ toString inventoryID ++ "/hosts"

/-- The name-to-object map of existing hosts (hosts whose name field is not a
string are skipped, later entries overwrite earlier ones, as for a Go map). -/
def buildHostMap (hosts : List Obj) : List (String × Obj) :=
  hosts.foldl
    (fun m h =>
      match getStr h "name" with
      | some n => setKey m n h
      | none => m)
    []

/-- `IsInventoryInDesiredState`: compare name, description and (when declared)
variables; when hosts are declared, additionally list the remote hosts and
require every declared host to exist in the desired state with no extras.
The first component records the remote operations performed. -/
def IsInventoryInDesiredState (env : AwxEnv) (inventory : Obj) (iv : InventorySpec) :
    List AwxOp × Bool :=
  if getStr inventory "name" ≠ some iv.name then ([], false)
  else if getStr inventory "description" ≠ some iv.description then ([], false)
  else if iv.vars ≠ "" ∧ getStr inventory "variables" ≠ some iv.vars then ([], false)
  else if iv.hosts.length > 0 then
    match getObjectID inventory with
    | Except.error _ => ([], false)
    | Except.ok inventoryID =>
      match env.ListObjects (hostsEndpoint inventoryID) with
      | Except.error _ => ([AwxOp.list (hostsEndpoint inventoryID)], false)
      | Except.ok existingHosts =>
        let m := buildHostMap existingHosts
        ([AwxOp.list (hostsEndpoint inventoryID)],
         (iv.hosts.all fun d =>
            match lookupKey m d.name with
            | some h => isHostInDesiredState h d
            | none => false)
           && existingHosts.length == iv.hosts.length)
  else ([], true)

/-- The fields `EnsureInventory` writes for the inventory itself. -/
def inventoryDataFields (iv : InventorySpec) : Obj :=
  [("name", JVal.str iv.name),
   ("description", JVal.str iv.description),
   ("variables", JVal.str iv.vars),
   ("organization", JVal.num 1)]

/-- The fields `reconcileHosts` writes for one host. -/
def hostDataFields (inventoryID : Int) (hs : HostSpec) : Obj :=
  [("name", JVal.str hs.name),
   ("description", JVal.str hs.description),
   ("inventory", JVal.num inventoryID),
   ("variables", JVal.str hs.vars)]

/-- The create-or-update loop of `reconcileHosts`: each declared host with a
name match in the existing-host map is updated by id, each one without a match
is created. -/
def upsertHosts (env : AwxEnv) (inventoryID : Int) (existingHostMap : List (String × Obj)) :
    List HostSpec → List AwxOp × Except String Unit
  | [] => ([], Except.ok ())
  | d :: rest =>
    match lookupKey existingHostMap d.name with
    | some existingHost =>
      match getObjectID existingHost with
      | Except.error e => ([], Except.error ("failed to get host ID: " ++ e))
      | Except.ok hostID =>
        match env.UpdateObject "hosts" hostID (hostDataFields inventoryID d) with
        | Except.error e =>
          ([AwxOp.update "hosts" hostID (hostDataFields inventoryID d)],
           Except.error ("failed to update host " ++ d.name ++ ": " ++ e))
        | Except.ok _ =>
          match upsertHosts env inventoryID existingHostMap rest with
          | (tr, r) => (AwxOp.update "hosts" hostID (hostDataFields inventoryID d) :: tr, r)
    | none =>
      match env.CreateObject "hosts" (hostDataFields inventoryID d) with
      | Except.error e =>
        ([AwxOp.create "hosts" (hostDataFields inventoryID d)],
         Except.error ("failed to create host " ++ d.name ++ ": " ++ e))
      | Except.ok _ =>
        match upsertHosts env inventoryID existingHostMap rest with
        | (tr, r) => (AwxOp.create "hosts" (hostDataFields inventoryID d) :: tr, r)

/-- The pruning loop of `reconcileHosts`: every existing host whose name is not
in the declared list is deleted by id.  (Go map iteration order is
unspecified; the map entries are visited in insertion order here, which does
not affect the final remote state.) -/
def deleteExtraHosts (env : AwxEnv) (desiredHostNames : List String) :
    List (String × Obj) → List AwxOp × Except String Unit
  | [] => ([], Except.ok ())
  | (n, h) :: rest =>
    if desiredHostNames.contains n then deleteExtraHosts env desiredHostNames rest
    else
      match getObjectID h with
      | Except.error e => ([], Except.error ("failed to get host ID for deletion: " ++ e))
      | Except.ok hostID =>
        match env.DeleteObject "hosts" hostID with
        | Except.error e =>
          ([AwxOp.delete "hosts" hostID],
           Except.error ("failed to delete host " ++ n ++ ": " ++ e))
        | Except.ok _ =>
          match deleteExtraHosts env desiredHostNames rest with
          | (tr, r) => (AwxOp.delete "hosts" hostID :: tr, r)

/-- `reconcileHosts`: list the existing hosts under the inventory, create or
update every declared host, then delete every existing host not declared. -/
def reconcileHosts (env : AwxEnv) (inventoryID : Int) (desiredHosts : List HostSpec) :
    List AwxOp × Except String Unit :=
  match env.ListObjects (hostsEndpoint inventoryID) with
  | Except.error e =>
    ([AwxOp.list (hostsEndpoint inventoryID)],
     Except.error ("failed to list existing hosts: " ++ e))
  | Except.ok existingHosts =>
    match upsertHosts env inventoryID (buildHostMap existingHosts) desiredHosts with
    | (tr, Except.error e) => (AwxOp.list (hostsEndpoint inventoryID) :: tr, Except.error e)
    | (tr, Except.ok _) =>
      match deleteExtraHosts env (desiredHosts.map HostSpec.name)
          (buildHostMap existingHosts) with
      | (tr2, Except.error e) =>
        (AwxOp.list (hostsEndpoint inventoryID) :: (tr ++ tr2), Except.error e)
      | (tr2, Except.ok _) =>
        (AwxOp.list (hostsEndpoint inventoryID) :: (tr ++ tr2), Except.ok ())

/-- The create-or-update phase of `EnsureInventory` (no host handling). -/
def ensureInventoryObject (env : AwxEnv) (iv : InventorySpec) (invOpt : Option Obj) :
    List AwxOp × Except String Obj :=
  match invOpt with
  | none =>
    match env.CreateObject "inventories" (inventoryDataFields iv) with
    | Except.error e =>
      ([AwxOp.create "inventories" (inventoryDataFields iv)],
       Except.error ("failed to create inventory: " ++ e))
    | Except.ok inventory =>
      if (lookupKey inventory "id").isSome then
        ([AwxOp.create "inventories" (inventoryDataFields iv)], Except.ok inventory)
      else
        ([AwxOp.create "inventories" (inventoryDataFields iv)],
         Except.error ("created inventory " ++ iv.name ++ " has no ID field"))
  | some inventory =>
    match getObjectID inventory with
    | Except.error e =>
      ([], Except.error ("failed to get ID from existing inventory " ++ iv.name ++ ": " ++ e))
    | Except.ok inventoryID =>
      match env.UpdateObject "inventories" inventoryID (inventoryDataFields iv) with
      | Except.error e =>
        ([AwxOp.update "inventories" inventoryID (inventoryDataFields iv)],
         Except.error ("failed to update inventory: " ++ e))
      | Except.ok inv2 =>
        ([AwxOp.update "inventories" inventoryID (inventoryDataFields iv)], Except.ok inv2)

/-- `EnsureInventory`: look up by name, create or update the inventory, then
reconcile its hosts when (and only when) the spec declares at least one. -/
def EnsureInventory (env : AwxEnv) (iv : InventorySpec) : List AwxOp × Except String Obj :=
  match env.FindObjectByName "inventories" iv.name with
  | Except.error e =>
    ([AwxOp.find "inventories" iv.name],
     Except.error ("failed to check if inventory exists: " ++ e))
  | Except.ok invOpt =>
    match ensureInventoryObject env iv invOpt with
    | (tr, Except.error e) => (AwxOp.find "inventories" iv.name :: tr, Except.error e)
    | (tr, Except.ok inventory) =>
      match getObjectID inventory with
      | Except.error e =>
        (AwxOp.find "inventories" iv.name :: tr,
         Except.error
           ("failed to get inventory ID for host operations in " ++ iv.name ++ ": " ++ e))
      | Except.ok inventoryID =>
        if iv.hosts.length > 0 then
          match reconcileHosts env inventoryID iv.hosts with
          | (tr2, Except.error e) =>
            (AwxOp.find "inventories" iv.name :: (tr ++ tr2),
             Except.error
               ("failed to reconcile hosts for inventory " ++ iv.name ++ ": " ++ e))
          | (tr2, Except.ok _) =>
            (AwxOp.find "inventories" iv.name :: (tr ++ tr2), Except.ok inventory)
        else (AwxOp.find "inventories" iv.name :: tr, Except.ok inventory)

/-- `DeleteInventory`: look up by name; absent is a successful no-op, otherwise
delete by id. -/
def DeleteInventory (env : AwxEnv) (name : String) : List AwxOp × Except String Unit :=
  match env.FindObjectByName "inventories" name with
  | Except.error e =>
    ([AwxOp.find "inventories" name],
     Except.error ("failed to check if inventory exists: " ++ e))
  | Except.ok none => ([AwxOp.find "inventories" name], Except.ok ())
  | Except.ok (some inventory) =>
    match getObjectID inventory with
    | Except.error e => ([AwxOp.find "inventories" name], Except.error e)
    | Except.ok id =>
      match env.DeleteObject "inventories" id with
      | Except.error e =>
        ([AwxOp.find "inventories" name, AwxOp.delete "inventories" id], Except.error e)
      | Except.ok _ =>
        ([AwxOp.find "inventories" name, AwxOp.delete "inventories" id], Except.ok ())

/-! ### Job template manager (pkg/awx/jobtemplates.go) -/

/-- The extra-vars tail of `IsJobTemplateInDesiredState`. -/
def jtExtraVarsCheck (jobTemplate : Obj) (jts : JobTemplateSpec) : Bool :=
  if jts.extraVars ≠ "" ∧ getStr jobTemplate "extra_vars" ≠ some jts.extraVars then false
  else true

/-- The inventory-relation check of `IsJobTemplateInDesiredState`: an embedded
object is compared by name directly, a bare numeric id is resolved with a
`GetObject` call, anything else fails the comparison. -/
def jtInventoryCheck (env : AwxEnv) (jobTemplate : Obj) (jts : JobTemplateSpec) :
    List AwxOp × Bool :=
  match lookupKey jobTemplate "inventory" with
  | none => ([], false)
  | some (JVal.obj inventoryFields) =>
    if getStr inventoryFields "name" ≠ some jts.inventoryName then ([], false)
    else ([], jtExtraVarsCheck jobTemplate jts)
  | some (JVal.num inventoryID) =>
    match env.GetObject "inventories" inventoryID with
    | Except.error _ => ([AwxOp.getObj "inventories" inventoryID], false)
    | Except.ok inventoryObj =>
      if getStr inventoryObj "name" ≠ some jts.inventoryName then
        ([AwxOp.getObj "inventories" inventoryID], false)
      else ([AwxOp.getObj "inventories" inventoryID], jtExtraVarsCheck jobTemplate jts)
  | some _ => ([], false)

/-- `IsJobTemplateInDesiredState`: compare name, description and playbook, then
the project relation (embedded object by name, bare numeric id via a
`GetObject` fetch), then the inventory relation the same way, then extra vars
when declared. -/
def IsJobTemplateInDesiredState (env : AwxEnv) (jobTemplate : Obj) (jts : JobTemplateSpec) :
    List AwxOp × Bool :=
  if getStr jobTemplate "name" ≠ some jts.name then ([], false)
  else if getStr jobTemplate "description" ≠ some jts.description then ([], false)
  else if getStr jobTemplate "playbook" ≠ some jts.playbook then ([], false)
  else
    match lookupKey jobTemplate "project" with
    | none => ([], false)
    | some (JVal.obj projectFields) =>
      if getStr projectFields "name" ≠ some jts.projectName then ([], false)
      else jtInventoryCheck env jobTemplate jts
    | some (JVal.num projectID) =>
      match env.GetObject "projects" projectID with
      | Except.error _ => ([AwxOp.getObj "projects" projectID], false)
      | Except.ok projectObj =>
        if getStr projectObj "name" ≠ some jts.projectName then
          ([AwxOp.getObj "projects" projectID], false)
        else
          match jtInventoryCheck env jobTemplate jts with
          | (tr, b) => (AwxOp.getObj "projects" projectID :: tr, b)
    | some _ => ([], false)

/-- The fields `EnsureJobTemplate` writes given the resolved project and
inventory ids. -/
def jobTemplateDataFields (jts : JobTemplateSpec) (projectID inventoryID : Int) : Obj :=
  let d :=
    [("name", JVal.str jts.name),
     ("description", JVal.str jts.description),
     ("project", JVal.num projectID),
     ("inventory", JVal.num inventoryID),
     ("playbook", JVal.str jts.playbook),
     ("job_type", JVal.str "run"),
     ("verbosity", JVal.num 0),
     ("ask_limit_on_launch", JVal.boolean false),
     ("ask_inventory_on_launch", JVal.boolean false),
     ("ask_credential_on_launch", JVal.boolean false)]
  if jts.extraVars ≠ "" then setKey d "extra_vars" (JVal.str jts.extraVars) else d

/-- The create-or-update tail of `EnsureJobTemplate`, after the project and
inventory dependencies have been resolved. -/
def ensureJobTemplateObject (env : AwxEnv) (jts : JobTemplateSpec) (jtOpt : Option Obj)
    (projectID inventoryID : Int) : List AwxOp × Except String Obj :=
  match jtOpt with
  | none =>
    match env.CreateObject "job_templates" (jobTemplateDataFields jts projectID inventoryID) with
    | Except.error e =>
      ([AwxOp.create "job_templates" (jobTemplateDataFields jts projectID inventoryID)],
       Except.error ("failed to create job template: " ++ e))
    | Except.ok jobTemplate =>
      if (lookupKey jobTemplate "id").isSome then
        ([AwxOp.create "job_templates" (jobTemplateDataFields jts projectID inventoryID)],
         Except.ok jobTemplate)
      else
        ([AwxOp.create "job_templates" (jobTemplateDataFields jts projectID inventoryID)],
         Except.error ("created job template " ++ jts.name ++ " has no ID field"))
  | some jobTemplate =>
    match getObjectID jobTemplate with
    | Except.error e =>
      ([],
       Except.error
         ("failed to get ID from existing job template " ++ jts.name ++ ": " ++ e))
    | Except.ok id =>
      match env.UpdateObject "job_templates" id
          (jobTemplateDataFields jts projectID inventoryID) with
      | Except.error e =>
        ([AwxOp.update "job_templates" id (jobTemplateDataFields jts projectID inventoryID)],
         Except.error ("failed to update job template: " ++ e))
      | Except.ok jt2 =>
        ([AwxOp.update "job_templates" id (jobTemplateDataFields jts projectID inventoryID)],
         Except.ok jt2)

/-- `EnsureJobTemplate`: look up the job template by name, then resolve the
referenced project and inventory by name — a missing dependency fails with a
dedicated "not found" error before any create or update — then create or
update with the full field mapping. -/
def EnsureJobTemplate (env : AwxEnv) (jts : JobTemplateSpec) :
    List AwxOp × Except String Obj :=
  match env.FindObjectByName "job_templates" jts.name with
  | Except.error e =>
    ([AwxOp.find "job_templates" jts.name],
     Except.error ("failed to check if job template exists: " ++ e))
  | Except.ok jtOpt =>
    match env.FindObjectByName "projects" jts.projectName with
    | Except.error e =>
      ([AwxOp.find "job_templates" jts.name, AwxOp.find "projects" jts.projectName],
       Except.error ("failed to find project " ++ jts.projectName ++ ": " ++ e))
    | Except.ok none =>
      ([AwxOp.find "job_templates" jts.name, AwxOp.find "projects" jts.projectName],
       Except.error ("project " ++ jts.projectName ++ " not found"))
    | Except.ok (some project) =>
      match getObjectID project with
      | Except.error e =>
        ([AwxOp.find "job_templates" jts.name, AwxOp.find "projects" jts.projectName],
         Except.error ("failed to get project ID: " ++ e))
      | Except.ok projectID =>
        match env.FindObjectByName "inventories" jts.inventoryName with
        | Except.error e =>
          ([AwxOp.find "job_templates" jts.name, AwxOp.find "projects" jts.projectName,
            AwxOp.find "inventories" jts.inventoryName],
           Except.error ("failed to find inventory " ++ jts.inventoryName ++ ": " ++ e))
        | Except.ok none =>
          ([AwxOp.find "job_templates" jts.name, AwxOp.find "projects" jts.projectName,
            AwxOp.find "inventories" jts.inventoryName],
           Except.error ("inventory " ++ jts.inventoryName ++ " not found"))
        | Except.ok (some inventory) =>
          match getObjectID inventory with
          | Except.error e =>
            ([AwxOp.find "job_templates" jts.name, AwxOp.find "projects" jts.projectName,
              AwxOp.find "inventories" jts.inventoryName],
             Except.error ("failed to get inventory ID: " ++ e))
          | Except.ok inventoryID =>
            match ensureJobTemplateObject env jts jtOpt projectID inventoryID with
            | (tr, r) =>
              (AwxOp.find "job_templates" jts.name :: AwxOp.find "projects" jts.projectName ::
                AwxOp.find "inventories" jts.inventoryName :: tr, r)

/-- `DeleteJobTemplate`: look up by name; absent is a successful no-op,
otherwise delete by id. -/
def DeleteJobTemplate (env : AwxEnv) (name : String) : List AwxOp × Except String Unit :=
  match env.FindObjectByName "job_templates" name with
  | Except.error e =>
    ([AwxOp.find "job_templates" name],
     Except.error ("failed to check if job template exists: " ++ e))
  | Except.ok none => ([AwxOp.find "job_templates" name], Except.ok ())
  | Except.ok (some jobTemplate) =>
    match getObjectID jobTemplate with
    | Except.error e =>
      ([AwxOp.find "job_templates" name],
       Except.error ("failed to get job template ID: " ++ e))
    | Except.ok id =>
      match env.DeleteObject "job_templates" id with
      | Except.error e =>
        ([AwxOp.find "job_templates" name, AwxOp.delete "job_templates" id],
         Except.error ("failed to delete job template " ++ name ++ ": " ++ e))
      | Except.ok _ =>
        ([AwxOp.find "job_templates" name, AwxOp.delete "job_templates" id], Except.ok ())

/-! ### Reconciliation loop (controllers/awxinstance_controller.go)

The controller is modelled as pure functions over the instance spec, the
remote-API environment and the status subresource.  Kubernetes status writes
always succeed in this model; the connection test outcome and whether the
30-second periodic check is due are inputs. -/

/-- A name-to-status map of the status subresource (ProjectStatuses and
friends). -/
abbrev StatusMap := String → Option String

/-- Write one entry of a status map. -/
def setStatus (m : StatusMap) (k v : String) : StatusMap :=
  fun n => if n = k then some v else m n

/-- The observed status of an instance: the three per-kind status maps, the
Ready condition (status flag and reason) and the connection status string. -/
structure AWXStatus where
  projectStatuses : StatusMap
  inventoryStatuses : StatusMap
  jobTemplateStatuses : StatusMap
  ready : Option (Bool × String)
  connectionStatus : Option String

/-- The outcome of one reconcile pass: the requeue delay of the returned
result, the returned error, the final status, the remote operations performed
and the ensured resources (kind, name) in call order. -/
structure PassResult where
  requeueAfterSeconds : Nat
  err : Option String
  status : AWXStatus
  trace : List AwxOp
  calls : List (String × String)

/-- One per-kind loop of the Reconcile pass: ensure every declared resource in
order, recording "Reconciled" on success and "Failed: error" on the first
failure, which aborts the loop.  Returns the operations, the names ensured in
call order, the updated status map and the error if any. -/
def reconcileKindLoop {α : Type} (ensure : α → List AwxOp × Except String Obj)
    (nameOf : α → String) (statuses : StatusMap) :
    List α → List AwxOp × List String × StatusMap × Option String
  | [] => ([], [], statuses, none)
  | s :: rest =>
    match ensure s with
    | (tr, Except.error e) =>
      (tr, [nameOf s], setStatus statuses (nameOf s) ("Failed: " ++ e), some e)
    | (tr, Except.ok _) =>
      match reconcileKindLoop ensure nameOf (setStatus statuses (nameOf s) "Reconciled") rest with
      | (tr2, calls, statuses2, err) => (tr ++ tr2, nameOf s :: calls, statuses2, err)

/-- The per-kind reconcile pass (controller lines 223-290): Projects, then
Inventories, then Job Templates; the first failure returns a one-minute
requeue, full success sets the Ready condition and returns the periodic
30-second requeue. -/
def reconcileEach (env : AwxEnv) (spec : AWXInstanceSpec) (st : AWXStatus) : PassResult :=
  match reconcileKindLoop (EnsureProject env) ProjectSpec.name st.projectStatuses
      spec.projects with
  | (tr1, calls1, pst, some e) =>
    { requeueAfterSeconds := 60, err := some e,
      status := { st with projectStatuses := pst },
      trace := tr1, calls := calls1.map (fun n => ("project", n)) }
  | (tr1, calls1, pst, none) =>
    match reconcileKindLoop (EnsureInventory env) InventorySpec.name st.inventoryStatuses
        spec.inventories with
    | (tr2, calls2, ist, some e) =>
      { requeueAfterSeconds := 60, err := some e,
        status := { st with projectStatuses := pst, inventoryStatuses := ist },
        trace := tr1 ++ tr2,
        calls := calls1.map (fun n => ("project", n)) ++ calls2.map (fun n => ("inventory", n)) }
    | (tr2, calls2, ist, none) =>
      match reconcileKindLoop (EnsureJobTemplate env) JobTemplateSpec.name
          st.jobTemplateStatuses spec.jobTemplates with
      | (tr3, calls3, jst, some e) =>
        { requeueAfterSeconds := 60, err := some e,
          status := { st with projectStatuses := pst, inventoryStatuses := ist,
                              jobTemplateStatuses := jst },
          trace := tr1 ++ tr2 ++ tr3,
          calls := calls1.map (fun n => ("project", n))
            ++ calls2.map (fun n => ("inventory", n))
            ++ calls3.map (fun n => ("jobTemplate", n)) }
      | (tr3, calls3, jst, none) =>
        { requeueAfterSeconds := 30, err := none,
          status := { st with projectStatuses := pst, inventoryStatuses := ist,
                              jobTemplateStatuses := jst,
                              ready := some (true, "ReconciliationSucceeded") },
          trace := tr1 ++ tr2 ++ tr3,
          calls := calls1.map (fun n => ("project", n))
            ++ calls2.map (fun n => ("inventory", n))
            ++ calls3.map (fun n => ("jobTemplate", n)) }

/-- The project part of `reconcileInternalChanges`: fetch each declared
project and re-ensure it when absent or out of the desired state. -/
def driftProjects (env : AwxEnv) (statuses : StatusMap) :
    List ProjectSpec → List AwxOp × StatusMap × Bool × Option String
  | [] => ([], statuses, false, none)
  | ps :: rest =>
    match env.FindObjectByName "projects" ps.name with
    | Except.error e =>
      ([AwxOp.find "projects" ps.name], statuses, false,
       some ("failed to get project " ++ ps.name ++ ": " ++ e))
    | Except.ok (some project) =>
      if IsProjectInDesiredState project ps then
        match driftProjects env statuses rest with
        | (tr2, st2, ch2, err2) => (AwxOp.find "projects" ps.name :: tr2, st2, ch2, err2)
      else
        match EnsureProject env ps with
        | (tr, Except.error e) =>
          (AwxOp.find "projects" ps.name :: tr, statuses, false,
           some ("failed to reconcile project " ++ ps.name ++ ": " ++ e))
        | (tr, Except.ok _) =>
          match driftProjects env
              (setStatus statuses ps.name "Reconciled (corrected internal changes)") rest with
          | (tr2, st2, _, err2) =>
            (AwxOp.find "projects" ps.name :: (tr ++ tr2), st2, err2.isNone, err2)
    | Except.ok none =>
      match EnsureProject env ps with
      | (tr, Except.error e) =>
        (AwxOp.find "projects" ps.name :: tr, statuses, false,
         some ("failed to reconcile project " ++ ps.name ++ ": " ++ e))
      | (tr, Except.ok _) =>
        match driftProjects env
            (setStatus statuses ps.name "Reconciled (corrected internal changes)") rest with
        | (tr2, st2, _, err2) =>
          (AwxOp.find "projects" ps.name :: (tr ++ tr2), st2, err2.isNone, err2)

/-- The inventory part of `reconcileInternalChanges`. -/
def driftInventories (env : AwxEnv) (statuses : StatusMap) :
    List InventorySpec → List AwxOp × StatusMap × Bool × Option String
  | [] => ([], statuses, false, none)
  | iv :: rest =>
    match env.FindObjectByName "inventories" iv.name with
    | Except.error e =>
      ([AwxOp.find "inventories" iv.name], statuses, false,
       some ("failed to get inventory " ++ iv.name ++ ": " ++ e))
    | Except.ok (some inventory) =>
      match IsInventoryInDesiredState env inventory iv with
      | (ctr, true) =>
        match driftInventories env statuses rest with
        | (tr2, st2, ch2, err2) =>
          (AwxOp.find "inventories" iv.name :: (ctr ++ tr2), st2, ch2, err2)
      | (ctr, false) =>
        match EnsureInventory env iv with
        | (tr, Except.error e) =>
          (AwxOp.find "inventories" iv.name :: (ctr ++ tr), statuses, false,
           some ("failed to reconcile inventory " ++ iv.name ++ ": " ++ e))
        | (tr, Except.ok _) =>
          match driftInventories env
              (setStatus statuses iv.name "Reconciled (corrected internal changes)") rest with
          | (tr2, st2, _, err2) =>
            (AwxOp.find "inventories" iv.name :: (ctr ++ (tr ++ tr2)), st2, err2.isNone, err2)
    | Except.ok none =>
      match EnsureInventory env iv with
      | (tr, Except.error e) =>
        (AwxOp.find "inventories" iv.name :: tr, statuses, false,
         some ("failed to reconcile inventory " ++ iv.name ++ ": " ++ e))
      | (tr, Except.ok _) =>
        match driftInventories env
            (setStatus statuses iv.name "Reconciled (corrected internal changes)") rest with
        | (tr2, st2, _, err2) =>
          (AwxOp.find "inventories" iv.name :: (tr ++ tr2), st2, err2.isNone, err2)

/-- The job template part of `reconcileInternalChanges`. -/
def driftJobTemplates (env : AwxEnv) (statuses : StatusMap) :
    List JobTemplateSpec → List AwxOp × StatusMap × Bool × Option String
  | [] => ([], statuses, false, none)
  | jts :: rest =>
    match env.FindObjectByName "job_templates" jts.name with
    | Except.error e =>
      ([AwxOp.find "job_templates" jts.name], statuses, false,
       some ("failed to get job template " ++ jts.name ++ ": " ++ e))
    | Except.ok (some jobTemplate) =>
      match IsJobTemplateInDesiredState env jobTemplate jts with
      | (ctr, true) =>
        match driftJobTemplates env statuses rest with
        | (tr2, st2, ch2, err2) =>
          (AwxOp.find "job_templates" jts.name :: (ctr ++ tr2), st2, ch2, err2)
      | (ctr, false) =>
        match EnsureJobTemplate env jts with
        | (tr, Except.error e) =>
          (AwxOp.find "job_templates" jts.name :: (ctr ++ tr), statuses, false,
           some ("failed to reconcile job template " ++ jts.name ++ ": " ++ e))
        | (tr, Except.ok _) =>
          match driftJobTemplates env
              (setStatus statuses jts.name "Reconciled (corrected internal changes)") rest with
          | (tr2, st2, _, err2) =>
            (AwxOp.find "job_templates" jts.name :: (ctr ++ (tr ++ tr2)), st2, err2.isNone, err2)
    | Except.ok none =>
      match EnsureJobTemplate env jts with
      | (tr, Except.error e) =>
        (AwxOp.find "job_templates" jts.name :: tr, statuses, false,
         some ("failed to reconcile job template " ++ jts.name ++ ": " ++ e))
      | (tr, Except.ok _) =>
        match driftJobTemplates env
            (setStatus statuses jts.name "Reconciled (corrected internal changes)") rest with
        | (tr2, st2, _, err2) =>
          (AwxOp.find "job_templates" jts.name :: (tr ++ tr2), st2, err2.isNone, err2)

/-- `reconcileInternalChanges`: the drift-correction pass over all three
kinds; an error aborts and discards the changes flag, as in the source. -/
def reconcileInternalChanges (env : AwxEnv) (spec : AWXInstanceSpec) (st : AWXStatus) :
    List AwxOp × AWXStatus × Bool × Option String :=
  match driftProjects env st.projectStatuses spec.projects with
  | (tr1, pst, _, some e) => (tr1, { st with projectStatuses := pst }, false, some e)
  | (tr1, pst, ch1, none) =>
    match driftInventories env st.inventoryStatuses spec.inventories with
    | (tr2, ist, _, some e) =>
      (tr1 ++ tr2, { st with projectStatuses := pst, inventoryStatuses := ist },
       false, some e)
    | (tr2, ist, ch2, none) =>
      match driftJobTemplates env st.jobTemplateStatuses spec.jobTemplates with
      | (tr3, jst, _, some e) =>
        (tr1 ++ tr2 ++ tr3,
         { st with projectStatuses := pst, inventoryStatuses := ist,
                   jobTemplateStatuses := jst }, false, some e)
      | (tr3, jst, ch3, none) =>
        (tr1 ++ tr2 ++ tr3,
         { st with projectStatuses := pst, inventoryStatuses := ist,
                   jobTemplateStatuses := jst }, ch1 || ch2 || ch3, none)

/-- The main body of a non-deleting reconcile pass after the connection phase:
drift correction (a failure requeues after one minute), then the per-kind
reconcile pass. -/
def reconcileMain (env : AwxEnv) (spec : AWXInstanceSpec) (st : AWXStatus) : PassResult :=
  match reconcileInternalChanges env spec st with
  | (tr, st2, _, some e) =>
    { requeueAfterSeconds := 60, err := some e, status := st2, trace := tr, calls := [] }
  | (tr, st2, _, none) =>
    match reconcileEach env spec st2 with
    | r => { r with trace := tr ++ r.trace }

/-- The per-pass inputs the controller reads from the clock and the network:
whether the periodic 30-second connection check is due, and the connection
test outcome (`some e` on failure). -/
structure ReconcileInput where
  periodicDue : Bool
  connectionError : Option String

/-- The connection status string recorded by the periodic check. -/
def connStatusString : Option String → String
  | some e => "Failed: " ++ e
  | none => "Connected"

/-- The status after the connection phase: the periodic check records the
connection status string, otherwise the status is untouched. -/
def reconcileConnStatus (input : ReconcileInput) (st : AWXStatus) : AWXStatus :=
  if input.periodicDue then
    { st with connectionStatus := some (connStatusString input.connectionError) }
  else st

/-- `Reconcile` for a non-deleting instance: the connection phase records the
connection status when the periodic check is due; a connection failure against
an external instance sets Ready=False with reason ConnectionFailed and returns
a 30-second requeue with the error, without touching any remote resource; any
other outcome continues with `reconcileMain`. -/
def Reconcile (env : AwxEnv) (spec : AWXInstanceSpec) (input : ReconcileInput)
    (st : AWXStatus) : PassResult :=
  match input.connectionError with
  | some e =>
    if spec.externalInstance then
      { requeueAfterSeconds := 30, err := some e,
        status := { (reconcileConnStatus input st) with ready := some (false, "ConnectionFailed") },
        trace := [], calls := [] }
    else reconcileMain env spec (reconcileConnStatus input st)
  | none => reconcileMain env spec (reconcileConnStatus input st)

/-- One finalization loop: delete every declared resource of one kind,
aborting on the first error. -/
def deleteAll {α : Type} (del : α → List AwxOp × Except String Unit) :
    List α → List AwxOp × Except String Unit
  | [] => ([], Except.ok ())
  | x :: rest =>
    match del x with
    | (tr, Except.error e) => (tr, Except.error e)
    | (tr, Except.ok _) =>
      match deleteAll del rest with
      | (tr2, r) => (tr ++ tr2, r)

/-- `finalizeAWXInstance`: delete the declared job templates, then the
declared inventories, then the declared projects, in that fixed order,
aborting on the first error. -/
def finalizeAWXInstance (env : AwxEnv) (spec : AWXInstanceSpec) :
    List AwxOp × Except String Unit :=
  match deleteAll (fun j => DeleteJobTemplate env (JobTemplateSpec.name j)) spec.jobTemplates with
  | (tr1, Except.error e) => (tr1, Except.error e)
  | (tr1, Except.ok _) =>
    match deleteAll (fun iv => DeleteInventory env (InventorySpec.name iv)) spec.inventories with
    | (tr2, Except.error e) => (tr1 ++ tr2, Except.error e)
    | (tr2, Except.ok _) =>
      match deleteAll (fun p => DeleteProject env (ProjectSpec.name p)) spec.projects with
      | (tr3, r) => (tr1 ++ tr2 ++ tr3, r)

/-- The deletion branch of `Reconcile` (controller lines 91-105): when the
instance carries the finalizer, run finalization; on error the finalizer stays
in place, on success it is removed.  Returns the operations performed, whether
the finalizer is still present afterwards, and the error if any. -/
def ReconcileDeleting (env : AwxEnv) (spec : AWXInstanceSpec) (hasFinalizer : Bool) :
    List AwxOp × Bool × Option String :=
  if hasFinalizer then
    match finalizeAWXInstance env spec with
    | (tr, Except.error e) => (tr, true, some e)
    | (tr, Except.ok _) => (tr, false, none)
  else ([], false, none)

/-! ### Remote host state

To state what `reconcileHosts` leaves on the server, the host set under one
inventory is a list of objects together with the next fresh id; applying the
recorded operations yields the final host set. -/

/-- The effect of an update targeting id `i` on one host: the host with that
id receives the data by PATCH, every other host is unchanged. -/
def updateHostFn (i : Int) (data : Obj) (h : Obj) : Obj :=
  match getObjectID h with
  | Except.ok j => if j = i then mergeObj h data else h
  | Except.error _ => h

/-- Whether a host survives a delete targeting id `i`. -/
def deleteHostPred (i : Int) (h : Obj) : Bool :=
  match getObjectID h with
  | Except.ok j => j != i
  | Except.error _ => true

/-- Apply one operation to the host set of an inventory: creates append the
data with a fresh id, updates PATCH the host with the given id, deletes remove
it; operations on other endpoints leave the host set unchanged. -/
def applyHostOp (st : List Obj × Int) (op : AwxOp) : List Obj × Int :=
  match op with
  | AwxOp.create endpoint data =>
    if endpoint = "hosts" then (st.1 ++ [("id", JVal.num st.2) :: data], st.2 + 1) else st
  | AwxOp.update endpoint i data =>
    if endpoint = "hosts" then (st.1.map (updateHostFn i data), st.2) else st
  | AwxOp.delete endpoint i =>
    if endpoint = "hosts" then (st.1.filter (deleteHostPred i), st.2) else st
  | _ => st

/-- Apply a whole operation trace to the host set of an inventory. -/
def applyHostOps (ops : List AwxOp) (st : List Obj × Int) : List Obj × Int :=
  ops.foldl applyHostOp st

/-- The names of the hosts in a host set. -/
def hostNames (hosts : List Obj) : List String :=
  hosts.filterMap fun h => getStr h "name"

/-- The ids of the hosts in a host set (hosts with an invalid id are skipped). -/
def hostIds (hosts : List Obj) : List Int :=
  hosts.filterMap fun h =>
    match getObjectID h with
    | Except.ok i => some i
    | Except.error _ => none

/-- Whether a result is a success. -/
def isOkE {ε α : Type} : Except ε α → Bool
  | Except.ok _ => true
  | Except.error _ => false

/-- An operation trace whose delete operations, if any, address only the hosts
endpoint: no project, inventory or job template is ever deleted by it. -/
def hostDeletesOnly (ops : List AwxOp) : Prop :=
  ∀ op ∈ ops, isDeleteOp op = true → opEndpoint op = "hosts"

/-! ### Concrete instances used by witnesses and counterexamples -/

/-- A remote API on which every lookup succeeds: projects and inventories are
found with fixed ids, anything else is absent, and every write succeeds
echoing the data with an id. -/
def happyEnv : AwxEnv where
  FindObjectByName := fun endpoint name =>
    if endpoint = "projects" then Except.ok (some [("id", JVal.num 1), ("name", JVal.str name)])
    else if endpoint = "inventories" then
      Except.ok (some [("id", JVal.num 2), ("name", JVal.str name)])
    else Except.ok none
  ListObjects := fun _ => Except.ok []
  GetObject := fun _ _ => Except.error "not found"
  CreateObject := fun _ data => Except.ok (setKey data "id" (JVal.num 9))
  UpdateObject := fun _ _ data => Except.ok (setKey data "id" (JVal.num 9))
  DeleteObject := fun _ _ => Except.ok ()

/-- Like `happyEnv` but every lookup of the name "BAD" fails with a remote
error, so ensuring a resource of that name fails. -/
def mixedEnv : AwxEnv where
  FindObjectByName := fun endpoint name =>
    if name = "BAD" then Except.error "boom"
    else if endpoint = "projects" then
      Except.ok (some [("id", JVal.num 1), ("name", JVal.str name)])
    else if endpoint = "inventories" then
      Except.ok (some [("id", JVal.num 2), ("name", JVal.str name)])
    else Except.ok none
  ListObjects := fun _ => Except.ok []
  GetObject := fun _ _ => Except.error "not found"
  CreateObject := fun _ data => Except.ok (setKey data "id" (JVal.num 9))
  UpdateObject := fun _ _ data => Except.ok (setKey data "id" (JVal.num 9))
  DeleteObject := fun _ _ => Except.ok ()

/-- A remote API on which nothing exists and nothing can be fetched. -/
def emptyEnv : AwxEnv where
  FindObjectByName := fun _ _ => Except.ok none
  ListObjects := fun _ => Except.ok []
  GetObject := fun _ _ => Except.error "not found"
  CreateObject := fun _ data => Except.ok (setKey data "id" (JVal.num 9))
  UpdateObject := fun _ _ data => Except.ok (setKey data "id" (JVal.num 9))
  DeleteObject := fun _ _ => Except.ok ()

/-- A status subresource with empty maps and no conditions. -/
def emptyStatus : AWXStatus where
  projectStatuses := fun _ => none
  inventoryStatuses := fun _ => none
  jobTemplateStatuses := fun _ => none
  ready := none
  connectionStatus := none

/-- A remote project whose compared fields all match `c3Spec` and whose
credential relation is a bare numeric id. -/
def c3Project : Obj :=
  [("id", JVal.num 1), ("name", JVal.str "P1"), ("description", JVal.str ""),
   ("scm_type", JVal.str "git"), ("scm_url", JVal.str "https://x/y.git"),
   ("scm_branch", JVal.str "main"), ("credential", JVal.num 7)]

/-- A project spec naming the SCM credential "c". -/
def c3Spec : ProjectSpec where
  name := "P1"
  description := ""
  scmType := "git"
  scmUrl := "https://x/y.git"
  scmBranch := "main"
  scmCredential := "c"

/-- A remote API on which credential id 7 resolves to an object named "c". -/
def c3Env : AwxEnv where
  FindObjectByName := fun _ _ => Except.ok none
  ListObjects := fun _ => Except.ok []
  GetObject := fun endpoint i =>
    if endpoint = "credentials" ∧ i = 7 then
      Except.ok [("id", JVal.num 7), ("name", JVal.str "c")]
    else Except.error "not found"
  CreateObject := fun _ data => Except.ok data
  UpdateObject := fun _ _ data => Except.ok data
  DeleteObject := fun _ _ => Except.ok ()

/-- The request body of the C2 scenario: a create for an object named
"mine". -/
def c2Data : Obj := [("name", JVal.str "mine")]

/-- The 2xx response body of the C2 scenario: no identifier, only a results
array holding one object with a different name. -/
def c2RespParsed : Obj :=
  [("results", JVal.arr [JVal.obj [("id", JVal.num 5), ("name", JVal.str "other")]])]

/-- A job template spec referencing project "P1" and inventory "I1". -/
def c4Spec : JobTemplateSpec where
  name := "JT1"
  description := ""
  projectName := "P1"
  inventoryName := "I1"
  playbook := "play.yml"
  extraVars := ""

/-- An instance spec whose only project is named "BAD", so its ensure fails
against `mixedEnv`. -/
def c8Spec : AWXInstanceSpec where
  externalInstance := false
  projects := [{ name := "BAD", description := "", scmType := "git", scmUrl := "",
                 scmBranch := "", scmCredential := "" }]
  inventories := []
  jobTemplates := []

/-- An instance spec declaring nothing. -/
def emptySpec : AWXInstanceSpec where
  externalInstance := false
  projects := []
  inventories := []
  jobTemplates := []

/-- Pass inputs with a healthy connection and no periodic check due. -/
def quietInput : ReconcileInput where
  periodicDue := false
  connectionError := none

/-- A project spec named "P1" with no SCM credential. -/
def p1Spec : ProjectSpec where
  name := "P1"
  description := ""
  scmType := "git"
  scmUrl := ""
  scmBranch := ""
  scmCredential := ""

/-- A project spec named "BAD", whose lookup fails against `mixedEnv`. -/
def badSpec : ProjectSpec where
  name := "BAD"
  description := ""
  scmType := "git"
  scmUrl := ""
  scmBranch := ""
  scmCredential := ""

/-- An instance spec declaring the projects "P1" then "BAD". -/
def c5Spec : AWXInstanceSpec where
  externalInstance := false
  projects := [p1Spec, badSpec]
  inventories := []
  jobTemplates := []

/-- A delete of object `i` on `endpoint` is accounted for by one of the
declared `names`: the finalizer looked such a name up on that endpoint, found
an object there, and `i` is exactly that object's id.  Deletes of remote
objects whose names are not declared can never satisfy this. -/
def declaredDelete (env : AwxEnv) (endpoint : String) (names : List String)
    (i : Int) : Prop :=
  ∃ name ∈ names, ∃ obj,
    env.FindObjectByName endpoint name = Except.ok (some obj) ∧
    getObjectID obj = Except.ok i

/-- The host object carries every field `reconcileHosts` writes for the
declared host `d` under inventory `inventoryID`, with exactly the declared
values (full overwrite of the host-level fields, no merge). -/
def hostFields (h : Obj) (inventoryID : Int) (d : HostSpec) : Prop :=
  ∀ kv ∈ hostDataFields inventoryID d, lookupKey h kv.1 = some kv.2

/-- The remote hosts existing under inventory 5: "h1" (id 101) and "h2"
(id 102). -/
def c1Hosts : List Obj :=
  [[("id", JVal.num 101), ("name", JVal.str "h1")],
   [("id", JVal.num 102), ("name", JVal.str "h2")]]

/-- A remote API holding the inventory "I1" with id 5, under which the two
hosts "h1" (id 101) and "h2" (id 102) exist; every write succeeds echoing the
data with the addressed id. -/
def c1Env : AwxEnv where
  FindObjectByName := fun endpoint name =>
    if endpoint = "inventories" then
      Except.ok (some [("id", JVal.num 5), ("name", JVal.str name)])
    else Except.ok none
  ListObjects := fun endpoint =>
    if endpoint = "inventories/5/hosts" then Except.ok c1Hosts
    else Except.ok []
  GetObject := fun _ _ => Except.error "not found"
  CreateObject := fun _ data => Except.ok (("id", JVal.num 9) :: data)
  UpdateObject := fun _ i data => Except.ok (setKey data "id" (JVal.num i))
  DeleteObject := fun _ _ => Except.ok ()

/-- The inventory spec "I1" redeclared with the single host "h1". -/
def c1Iv : InventorySpec where
  name := "I1"
  description := ""
  vars := ""
  hosts := [{ name := "h1", description := "", vars := "" }]

/-- The operation trace of ensuring `c1Iv` against `c1Env`: find and update
the inventory, list its hosts, update the matched host "h1" in place, delete
the no-longer-declared host "h2". -/
def c1Tr : List AwxOp :=
  [AwxOp.find "inventories" "I1",
   AwxOp.update "inventories" 5 (inventoryDataFields c1Iv),
   AwxOp.list "inventories/5/hosts",
   AwxOp.update "hosts" 101
     (hostDataFields 5 { name := "h1", description := "", vars := "" }),
   AwxOp.delete "hosts" 102]

/-- The inventory object `EnsureInventory` returns for `c1Iv` against
`c1Env`. -/
def c1Inv : Obj :=
  [("name", JVal.str "I1"), ("description", JVal.str ""), ("variables", JVal.str ""),
   ("organization", JVal.num 1), ("id", JVal.num 5)]

/-- An instance spec declaring the project "P1" and the empty inventory "I1". -/
def c9Spec : AWXInstanceSpec where
  externalInstance := false
  projects := [p1Spec]
  inventories := [{ name := "I1", description := "", vars := "", hosts := [] }]
  jobTemplates := []

/-! ## Theorems -/

/-- C4: when the referenced project is absent, `EnsureJobTemplate` fails with
the dependency-specific message "project NAME not found" (and, when the
project resolves but the inventory is absent, with "inventory NAME not
found"), and its operation trace holds no create and no update. -/
theorem C4_missing_dependency (env : AwxEnv) (jts : JobTemplateSpec) :
    ((∃ jtOpt, env.FindObjectByName "job_templates" jts.name = Except.ok jtOpt) →
      env.FindObjectByName "projects" jts.projectName = Except.ok none →
      EnsureJobTemplate env jts =
        ([AwxOp.find "job_templates" jts.name, AwxOp.find "projects" jts.projectName],
          Except.error ("project " ++ jts.projectName ++ " not found")) ∧
      ∀ op ∈ (EnsureJobTemplate env jts).1, isCreateOp op = false ∧ isUpdateOp op = false) ∧
    (∀ project projectID,
      (∃ jtOpt, env.FindObjectByName "job_templates" jts.name = Except.ok jtOpt) →
      env.FindObjectByName "projects" jts.projectName = Except.ok (some project) →
      getObjectID project = Except.ok projectID →
      env.FindObjectByName "inventories" jts.inventoryName = Except.ok none →
      EnsureJobTemplate env jts =
        ([AwxOp.find "job_templates" jts.name, AwxOp.find "projects" jts.projectName,
          AwxOp.find "inventories" jts.inventoryName],
          Except.error ("inventory " ++ jts.inventoryName ++ " not found")) ∧
      ∀ op ∈ (EnsureJobTemplate env jts).1, isCreateOp op = false ∧ isUpdateOp op = false) := by
  constructor
  · rintro ⟨jtOpt, hjt⟩ hproj
    have hE : EnsureJobTemplate env jts =
        ([AwxOp.find "job_templates" jts.name, AwxOp.find "projects" jts.projectName],
          Except.error ("project " ++ jts.projectName ++ " not found")) := by
      simp only [EnsureJobTemplate, hjt, hproj]
    refine ⟨hE, ?_⟩
    rw [hE]
    intro op hop
    simp only [List.mem_cons, List.not_mem_nil, or_false] at hop
    rcases hop with rfl | rfl
    · exact ⟨rfl, rfl⟩
    · exact ⟨rfl, rfl⟩
  · rintro project projectID ⟨jtOpt, hjt⟩ hproj hpid hinv
    have hE : EnsureJobTemplate env jts =
        ([AwxOp.find "job_templates" jts.name, AwxOp.find "projects" jts.projectName,
          AwxOp.find "inventories" jts.inventoryName],
          Except.error ("inventory " ++ jts.inventoryName ++ " not found")) := by
      simp only [EnsureJobTemplate, hjt, hproj, hpid, hinv]
    refine ⟨hE, ?_⟩
    rw [hE]
    intro op hop
    simp only [List.mem_cons, List.not_mem_nil, or_false] at hop
    rcases hop with rfl | rfl | rfl
    · exact ⟨rfl, rfl⟩
    · exact ⟨rfl, rfl⟩
    · exact ⟨rfl, rfl⟩

/-- C4 witness: against an empty remote, ensuring `c4Spec` fails with
"project P1 not found". -/
theorem C4_missing_dependency_witness :
    EnsureJobTemplate emptyEnv c4Spec =
      ([AwxOp.find "job_templates" "JT1", AwxOp.find "projects" "P1"],
        Except.error "project P1 not found") :=
  ((C4_missing_dependency emptyEnv c4Spec).1 ⟨none, rfl⟩ rfl).1

/-- C2 counterexample: a 2xx create response without an identifier whose
results array holds only an object named "other"; the request asked for
"mine" and the secondary find returns no object, yet `CreateObject` returns
the other object instead of an error. -/
theorem C2_counterexample :
    clientCreateObject (Except.ok []) c2Data c2RespParsed =
      Except.ok [("id", JVal.num 5), ("name", JVal.str "other")] ∧
    getStr [("id", JVal.num 5), ("name", JVal.str "other")] "name" ≠ some "mine" ∧
    getStr c2Data "name" = some "mine" := by
  refine ⟨rfl, by decide, rfl⟩

/-- C2 amended: when a 2xx create response has no identifier and a non-empty
results array with no name match, the client retries with a secondary find by
name; a non-empty secondary find result is returned, but when the secondary
find fails or is empty the client falls back to the first element of the
results array (which may be a different object), and only errors when that
element is not an object. -/
theorem C2_create_fallback (secondaryFind : Except String (List Obj))
    (data respParsed : Obj) (results : List JVal) (objectName : String)
    (hid : lookupKey respParsed "id" = none)
    (hres : lookupKey respParsed "results" = some (JVal.arr results))
    (hlen : results.length > 0)
    (hname : getStr data "name" = some objectName)
    (hnomatch : results.find? (fun item =>
        match item with
        | JVal.obj o => getStr o "name" = some objectName
        | _ => false) = none) :
    (∀ obj0 rest2, secondaryFind = Except.ok (obj0 :: rest2) →
      clientCreateObject secondaryFind data respParsed = Except.ok obj0) ∧
    ((secondaryFind = Except.ok [] ∨ ∃ e, secondaryFind = Except.error e) →
      clientCreateObject secondaryFind data respParsed = firstResultFallback results) ∧
    (∀ o rest2, results = JVal.obj o :: rest2 → firstResultFallback results = Except.ok o) ∧
    (∀ v rest2, results = v :: rest2 → (∀ o, v ≠ JVal.obj o) →
      firstResultFallback results =
        Except.error "could not find created object in API response") := by
  have hbase : ∀ r : Except String (List Obj),
      clientCreateObject r data respParsed =
        match r with
        | Except.ok (obj0 :: _) => Except.ok obj0
        | _ => firstResultFallback results := by
    intro r
    simp only [clientCreateObject, hid, Option.isSome_none, Bool.false_eq_true, if_false,
      hres, hlen, if_pos, hname, hnomatch]
  refine ⟨?_, ?_, ?_, ?_⟩
  · intro obj0 rest2 hsec
    rw [hbase, hsec]
  · rintro (hsec | ⟨e, hsec⟩) <;> rw [hbase, hsec]
  · intro o rest2 hr
    rw [hr]; rfl
  · intro v rest2 hr hnotobj
    rw [hr]
    cases v with
    | obj o => exact absurd rfl (hnotobj o)
    | num n => rfl
    | str s => rfl
    | boolean b => rfl
    | null => rfl
    | arr elems => rfl

/-- C2 witness for the amended theorem: with the concrete C2 scenario, the
empty secondary find leads to the first-result fallback, which returns the
object named "other". -/
theorem C2_create_fallback_witness :
    clientCreateObject (Except.ok []) c2Data c2RespParsed =
      firstResultFallback [JVal.obj [("id", JVal.num 5), ("name", JVal.str "other")]] :=
  ((C2_create_fallback (Except.ok []) c2Data c2RespParsed
      [JVal.obj [("id", JVal.num 5), ("name", JVal.str "other")]] "mine"
      rfl rfl (by decide) rfl rfl).2.1) (Or.inl rfl)

/-- C3 counterexample: a remote project whose compared fields all match and
whose credential relation is the bare numeric id 7; the environment resolves
id 7 to a credential named exactly as desired, yet the comparison returns
false — it does not fetch the credential by id. -/
theorem C3_counterexample :
    IsProjectInDesiredState c3Project c3Spec = false ∧
    lookupKey c3Project "credential" = some (JVal.num 7) ∧
    c3Env.GetObject "credentials" 7 = Except.ok [("id", JVal.num 7), ("name", JVal.str "c")] ∧
    getStr [("id", JVal.num 7), ("name", JVal.str "c")] "name" = some c3Spec.scmCredential ∧
    IsProjectInDesiredState c3Project { c3Spec with scmCredential := "" } = true := by
  exact ⟨by decide, rfl, rfl, by decide, by decide⟩

/-- Helper: what a successful extra-vars check of the job template comparison
implies. -/
theorem jtExtraVarsCheck_true {jobTemplate : Obj} {jts : JobTemplateSpec}
    (h : jtExtraVarsCheck jobTemplate jts = true) :
    jts.extraVars ≠ "" → getStr jobTemplate "extra_vars" = some jts.extraVars := by
  intro ha
  by_contra hb
  unfold jtExtraVarsCheck at h
  rw [if_pos ⟨ha, hb⟩] at h
  exact Bool.false_ne_true h

/-- Helper: what a successful inventory-relation check of the job template
comparison implies: either the relation is an embedded object with the desired
name, or it is a bare numeric id that the environment resolves to an object
with the desired name. -/
theorem jtInventoryCheck_true {env : AwxEnv} {jobTemplate : Obj} {jts : JobTemplateSpec}
    (h : (jtInventoryCheck env jobTemplate jts).2 = true) :
    ((∃ inventoryFields, lookupKey jobTemplate "inventory" = some (JVal.obj inventoryFields) ∧
        getStr inventoryFields "name" = some jts.inventoryName) ∨
      (∃ inventoryID inventoryObj,
        lookupKey jobTemplate "inventory" = some (JVal.num inventoryID) ∧
        env.GetObject "inventories" inventoryID = Except.ok inventoryObj ∧
        getStr inventoryObj "name" = some jts.inventoryName)) ∧
    (jts.extraVars ≠ "" → getStr jobTemplate "extra_vars" = some jts.extraVars) := by
  unfold jtInventoryCheck at h
  split at h
  · exact absurd h Bool.false_ne_true
  · rename_i inventoryFields heq
    split_ifs at h with h1
    exact ⟨Or.inl ⟨inventoryFields, heq, not_ne_iff.mp h1⟩, jtExtraVarsCheck_true h⟩
  · rename_i inventoryID heq
    split at h
    · exact absurd h Bool.false_ne_true
    · rename_i inventoryObj hg
      split_ifs at h with h1
      exact ⟨Or.inr ⟨inventoryID, inventoryObj, heq, hg, not_ne_iff.mp h1⟩,
        jtExtraVarsCheck_true h⟩
  · exact absurd h Bool.false_ne_true

/-- C3 amended: the comparisons return false when any compared field differs
(first and third conjuncts state the contrapositive: a true comparison pins
every compared field); for a job template, a project or inventory relation
returned as a bare numeric id is resolved with a fetch and compared by name;
but for a project, a credential relation that is not an embedded object makes
the comparison false without any fetch. -/
theorem C3_matchesDesired (env : AwxEnv) (project jobTemplate : Obj)
    (ps : ProjectSpec) (jts : JobTemplateSpec) :
    (IsProjectInDesiredState project ps = true →
      getStr project "name" = some ps.name ∧
      getStr project "description" = some ps.description ∧
      getStr project "scm_type" = some ps.scmType ∧
      (ps.scmType ≠ "manual" → ps.scmUrl ≠ "" → getStr project "scm_url" = some ps.scmUrl) ∧
      (ps.scmBranch ≠ "" → getStr project "scm_branch" = some ps.scmBranch) ∧
      (ps.scmCredential ≠ "" → ∃ credentialFields,
        lookupKey project "credential" = some (JVal.obj credentialFields) ∧
        getStr credentialFields "name" = some ps.scmCredential)) ∧
    (ps.scmCredential ≠ "" → ∀ v, lookupKey project "credential" = some v →
      (∀ fields, v ≠ JVal.obj fields) → IsProjectInDesiredState project ps = false) ∧
    ((IsJobTemplateInDesiredState env jobTemplate jts).2 = true →
      getStr jobTemplate "name" = some jts.name ∧
      getStr jobTemplate "description" = some jts.description ∧
      getStr jobTemplate "playbook" = some jts.playbook ∧
      ((∃ projectFields, lookupKey jobTemplate "project" = some (JVal.obj projectFields) ∧
          getStr projectFields "name" = some jts.projectName) ∨
        (∃ projectID projectObj,
          lookupKey jobTemplate "project" = some (JVal.num projectID) ∧
          env.GetObject "projects" projectID = Except.ok projectObj ∧
          getStr projectObj "name" = some jts.projectName)) ∧
      ((∃ inventoryFields, lookupKey jobTemplate "inventory" = some (JVal.obj inventoryFields) ∧
          getStr inventoryFields "name" = some jts.inventoryName) ∨
        (∃ inventoryID inventoryObj,
          lookupKey jobTemplate "inventory" = some (JVal.num inventoryID) ∧
          env.GetObject "inventories" inventoryID = Except.ok inventoryObj ∧
          getStr inventoryObj "name" = some jts.inventoryName)) ∧
      (jts.extraVars ≠ "" → getStr jobTemplate "extra_vars" = some jts.extraVars)) := by
  refine ⟨?_, ?_, ?_⟩
  · intro h
    unfold IsProjectInDesiredState at h
    by_cases h1 : getStr project "name" ≠ some ps.name
    · rw [if_pos h1] at h; exact absurd h Bool.false_ne_true
    rw [if_neg h1] at h
    by_cases h2 : getStr project "description" ≠ some ps.description
    · rw [if_pos h2] at h; exact absurd h Bool.false_ne_true
    rw [if_neg h2] at h
    by_cases h3 : getStr project "scm_type" ≠ some ps.scmType
    · rw [if_pos h3] at h; exact absurd h Bool.false_ne_true
    rw [if_neg h3] at h
    by_cases h4 : ps.scmType ≠ "manual" ∧ ps.scmUrl ≠ "" ∧
        getStr project "scm_url" ≠ some ps.scmUrl
    · rw [if_pos h4] at h; exact absurd h Bool.false_ne_true
    rw [if_neg h4] at h
    by_cases h5 : ps.scmBranch ≠ "" ∧ getStr project "scm_branch" ≠ some ps.scmBranch
    · rw [if_pos h5] at h; exact absurd h Bool.false_ne_true
    rw [if_neg h5] at h
    refine ⟨not_ne_iff.mp h1, not_ne_iff.mp h2, not_ne_iff.mp h3,
      fun ha hb => by by_contra hc; exact h4 ⟨ha, hb, hc⟩,
      fun ha => by by_contra hb; exact h5 ⟨ha, hb⟩,
      fun hcred => ?_⟩
    rw [if_pos hcred] at h
    split at h
    · exact absurd h Bool.false_ne_true
    · rename_i credentialFields heq
      exact ⟨credentialFields, heq, of_decide_eq_true h⟩
    · exact absurd h Bool.false_ne_true
  · intro hcred v hv hnotobj
    unfold IsProjectInDesiredState
    by_cases h1 : getStr project "name" ≠ some ps.name
    · rw [if_pos h1]
    · rw [if_neg h1]
      by_cases h2 : getStr project "description" ≠ some ps.description
      · rw [if_pos h2]
      · rw [if_neg h2]
        by_cases h3 : getStr project "scm_type" ≠ some ps.scmType
        · rw [if_pos h3]
        · rw [if_neg h3]
          by_cases h4 : ps.scmType ≠ "manual" ∧ ps.scmUrl ≠ "" ∧
              getStr project "scm_url" ≠ some ps.scmUrl
          · rw [if_pos h4]
          · rw [if_neg h4]
            by_cases h5 : ps.scmBranch ≠ "" ∧
                getStr project "scm_branch" ≠ some ps.scmBranch
            · rw [if_pos h5]
            · rw [if_neg h5, if_pos hcred, hv]
              cases v with
              | obj fields => exact absurd rfl (hnotobj fields)
              | num n => rfl
              | str s => rfl
              | boolean b => rfl
              | null => rfl
              | arr elems => rfl
  · intro h
    unfold IsJobTemplateInDesiredState at h
    by_cases h1 : getStr jobTemplate "name" ≠ some jts.name
    · rw [if_pos h1] at h; exact absurd h Bool.false_ne_true
    rw [if_neg h1] at h
    by_cases h2 : getStr jobTemplate "description" ≠ some jts.description
    · rw [if_pos h2] at h; exact absurd h Bool.false_ne_true
    rw [if_neg h2] at h
    by_cases h3 : getStr jobTemplate "playbook" ≠ some jts.playbook
    · rw [if_pos h3] at h; exact absurd h Bool.false_ne_true
    rw [if_neg h3] at h
    refine ⟨not_ne_iff.mp h1, not_ne_iff.mp h2, not_ne_iff.mp h3, ?_⟩
    split at h
    · exact absurd h Bool.false_ne_true
    · rename_i projectFields heq
      split_ifs at h with h4
      rcases jtInventoryCheck_true h with ⟨hrel, hev⟩
      exact ⟨Or.inl ⟨projectFields, heq, not_ne_iff.mp h4⟩, hrel, hev⟩
    · rename_i projectID heq
      split at h
      · exact absurd h Bool.false_ne_true
      · rename_i projectObj hg
        split_ifs at h with h4
        split at h
        rename_i ctr b hic
        have hb : (jtInventoryCheck env jobTemplate jts).2 = true := by
          rw [hic]; exact h
        rcases jtInventoryCheck_true hb with ⟨hrel, hev⟩
        exact ⟨Or.inr ⟨projectID, projectObj, heq, hg, not_ne_iff.mp h4⟩, hrel, hev⟩
    · exact absurd h Bool.false_ne_true

/-- C3 witness for the amended theorem: the bare-numeric-id credential branch
applied to the concrete project of the counterexample. -/
theorem C3_matchesDesired_witness :
    IsProjectInDesiredState c3Project c3Spec = false :=
  (C3_matchesDesired c3Env c3Project c3Project c3Spec c4Spec).2.1 (by decide)
    (JVal.num 7) rfl (fun fields hcontra => by cases hcontra)

/-- C7: when the connection test fails and the instance is external, the pass
sets Ready=False with reason ConnectionFailed and returns a 30-second requeue
with the connection error, performing no remote operation at all (so neither
drift correction nor any per-kind reconcile); when the instance is not
external, the pass continues with the main reconciliation body. -/
theorem C7_connection_failure (env : AwxEnv) (spec : AWXInstanceSpec)
    (input : ReconcileInput) (st : AWXStatus) (e : String)
    (hconn : input.connectionError = some e) :
    (spec.externalInstance = true →
      Reconcile env spec input st =
        { requeueAfterSeconds := 30, err := some e,
          status := { (reconcileConnStatus input st) with
                      ready := some (false, "ConnectionFailed") },
          trace := [], calls := [] }) ∧
    (spec.externalInstance = false →
      Reconcile env spec input st = reconcileMain env spec (reconcileConnStatus input st)) := by
  constructor
  · intro hext
    simp only [Reconcile, hconn, hext, if_true]
  · intro hext
    simp only [Reconcile, hconn, hext, Bool.false_eq_true, if_false]

/-- C7 witness: a failed connection against an external instance returns the
ConnectionFailed early result with an empty operation trace. -/
theorem C7_connection_failure_witness :
    Reconcile emptyEnv { emptySpec with externalInstance := true }
        { periodicDue := false, connectionError := some "down" } emptyStatus =
      { requeueAfterSeconds := 30, err := some "down",
        status := { emptyStatus with ready := some (false, "ConnectionFailed") },
        trace := [], calls := [] } :=
  (C7_connection_failure emptyEnv { emptySpec with externalInstance := true }
    { periodicDue := false, connectionError := some "down" } emptyStatus "down" rfl).1 rfl

/-- Helper: the per-kind pass returns the periodic 30-second requeue exactly
when it succeeds and the one-minute requeue exactly when it fails. -/
theorem reconcileEach_requeue (env : AwxEnv) (spec : AWXInstanceSpec) (st : AWXStatus) :
    ((reconcileEach env spec st).err = none ∧
      (reconcileEach env spec st).requeueAfterSeconds = 30) ∨
    ((reconcileEach env spec st).err ≠ none ∧
      (reconcileEach env spec st).requeueAfterSeconds = 60) := by
  unfold reconcileEach
  split
  · right; exact ⟨by simp, rfl⟩
  · split
    · right; exact ⟨by simp, rfl⟩
    · split
      · right; exact ⟨by simp, rfl⟩
      · left; exact ⟨rfl, rfl⟩

/-- Helper: the main pass body returns the 30-second requeue on success and
the one-minute requeue on any mid-pass failure. -/
theorem reconcileMain_requeue (env : AwxEnv) (spec : AWXInstanceSpec) (st : AWXStatus) :
    ((reconcileMain env spec st).err = none ∧
      (reconcileMain env spec st).requeueAfterSeconds = 30) ∨
    ((reconcileMain env spec st).err ≠ none ∧
      (reconcileMain env spec st).requeueAfterSeconds = 60) := by
  unfold reconcileMain
  split
  · right; exact ⟨by simp, rfl⟩
  · rename_i tr st2 ch heq
    rcases reconcileEach_requeue env spec st2 with ⟨ha, hb⟩ | ⟨ha, hb⟩
    · left; exact ⟨ha, hb⟩
    · right; exact ⟨ha, hb⟩

/-- C8 counterexample: a pass that fails mid-way (drift correction cannot
fetch the declared project "BAD") is requeued after 60 seconds, while a
successful pass is requeued after the 30-second periodic delay — the failure
delay is not shorter than the periodic schedule, so a failed pass does not
retry sooner. -/
theorem C8_counterexample :
    (Reconcile mixedEnv c8Spec quietInput emptyStatus).requeueAfterSeconds = 60 ∧
    (Reconcile mixedEnv c8Spec quietInput emptyStatus).err.isSome = true ∧
    (Reconcile mixedEnv emptySpec quietInput emptyStatus).requeueAfterSeconds = 30 ∧
    (Reconcile mixedEnv emptySpec quietInput emptyStatus).err = none ∧
    ¬ (60 < 30) := by
  exact ⟨rfl, rfl, rfl, rfl, by decide⟩

/-- C8 amended: when the connection test passes, a pass that completes
successfully is requeued after the fixed 30-second periodic delay, and a pass
that fails mid-way is requeued after one minute — a delay longer than the
periodic schedule, not shorter. -/
theorem C8_requeue_delays (env : AwxEnv) (spec : AWXInstanceSpec)
    (input : ReconcileInput) (st : AWXStatus)
    (hconn : input.connectionError = none) :
    ((Reconcile env spec input st).err = none →
      (Reconcile env spec input st).requeueAfterSeconds = 30) ∧
    ((Reconcile env spec input st).err ≠ none →
      (Reconcile env spec input st).requeueAfterSeconds = 60) ∧
    30 < 60 := by
  have hR : Reconcile env spec input st =
      reconcileMain env spec (reconcileConnStatus input st) := by
    simp only [Reconcile, hconn]
  rw [hR]
  rcases reconcileMain_requeue env spec (reconcileConnStatus input st) with
    ⟨ha, hb⟩ | ⟨ha, hb⟩
  · exact ⟨fun _ => hb, fun hcontra => absurd ha hcontra, by decide⟩
  · exact ⟨fun hcontra => absurd hcontra ha, fun _ => hb, by decide⟩

/-- C8 witness for the amended theorem: the concrete failing pass of the
counterexample is requeued after one minute. -/
theorem C8_requeue_delays_witness :
    (Reconcile mixedEnv c8Spec quietInput emptyStatus).requeueAfterSeconds = 60 :=
  (C8_requeue_delays mixedEnv c8Spec quietInput emptyStatus rfl).2.1 (by decide)

/-- Helper: every operation of `DeleteJobTemplate` addresses the job_templates
endpoint. -/
theorem DeleteJobTemplate_endpoint (env : AwxEnv) (n : String) :
    ∀ op ∈ (DeleteJobTemplate env n).1, opEndpoint op = "job_templates" := by
  intro op hop
  unfold DeleteJobTemplate at hop
  split at hop
  · simp only [List.mem_cons, List.not_mem_nil, or_false] at hop; subst hop; rfl
  · simp only [List.mem_cons, List.not_mem_nil, or_false] at hop; subst hop; rfl
  · split at hop
    · simp only [List.mem_cons, List.not_mem_nil, or_false] at hop; subst hop; rfl
    · split at hop <;>
        (simp only [List.mem_cons, List.not_mem_nil, or_false] at hop;
         rcases hop with rfl | rfl <;> rfl)

/-- Helper: every operation of `DeleteInventory` addresses the inventories
endpoint. -/
theorem DeleteInventory_endpoint (env : AwxEnv) (n : String) :
    ∀ op ∈ (DeleteInventory env n).1, opEndpoint op = "inventories" := by
  intro op hop
  unfold DeleteInventory at hop
  split at hop
  · simp only [List.mem_cons, List.not_mem_nil, or_false] at hop; subst hop; rfl
  · simp only [List.mem_cons, List.not_mem_nil, or_false] at hop; subst hop; rfl
  · split at hop
    · simp only [List.mem_cons, List.not_mem_nil, or_false] at hop; subst hop; rfl
    · split at hop <;>
        (simp only [List.mem_cons, List.not_mem_nil, or_false] at hop;
         rcases hop with rfl | rfl <;> rfl)

/-- Helper: every operation of `DeleteProject` addresses the projects
endpoint. -/
theorem DeleteProject_endpoint (env : AwxEnv) (n : String) :
    ∀ op ∈ (DeleteProject env n).1, opEndpoint op = "projects" := by
  intro op hop
  unfold DeleteProject at hop
  split at hop
  · simp only [List.mem_cons, List.not_mem_nil, or_false] at hop; subst hop; rfl
  · simp only [List.mem_cons, List.not_mem_nil, or_false] at hop; subst hop; rfl
  · split at hop
    · simp only [List.mem_cons, List.not_mem_nil, or_false] at hop; subst hop; rfl
    · split at hop <;>
        (simp only [List.mem_cons, List.not_mem_nil, or_false] at hop;
         rcases hop with rfl | rfl <;> rfl)

/-- Helper: a finalization loop over deletions that address one endpoint only
addresses that endpoint. -/
theorem deleteAll_endpoint {α : Type} (del : α → List AwxOp × Except String Unit)
    (ep : String) (hdel : ∀ x, ∀ op ∈ (del x).1, opEndpoint op = ep) (xs : List α) :
    ∀ op ∈ (deleteAll del xs).1, opEndpoint op = ep := by
  induction xs with
  | nil => intro op hop; simp [deleteAll] at hop
  | cons x rest ih =>
    intro op hop
    unfold deleteAll at hop
    split at hop
    · rename_i tr e heq
      exact hdel x op (by rw [heq]; exact hop)
    · rename_i tr u heq
      split at hop
      rename_i tr2 r heq2
      rcases List.mem_append.mp hop with h | h
      · exact hdel x op (by rw [heq]; exact h)
      · exact ih op (by rw [heq2]; exact h)

/-- Helper: the finalization trace decomposes into a job-template block, then
an inventory block, then a project block. -/
theorem finalize_decompose (env : AwxEnv) (spec : AWXInstanceSpec) :
    ∃ t1 t2 t3, (finalizeAWXInstance env spec).1 = t1 ++ t2 ++ t3 ∧
      (∀ op ∈ t1, opEndpoint op = "job_templates") ∧
      (∀ op ∈ t2, opEndpoint op = "inventories") ∧
      (∀ op ∈ t3, opEndpoint op = "projects") := by
  have hjt := deleteAll_endpoint (fun j => DeleteJobTemplate env (JobTemplateSpec.name j))
    "job_templates" (fun x => DeleteJobTemplate_endpoint env (JobTemplateSpec.name x))
    spec.jobTemplates
  have hiv := deleteAll_endpoint (fun iv => DeleteInventory env (InventorySpec.name iv))
    "inventories" (fun x => DeleteInventory_endpoint env (InventorySpec.name x))
    spec.inventories
  have hpr := deleteAll_endpoint (fun p => DeleteProject env (ProjectSpec.name p))
    "projects" (fun x => DeleteProject_endpoint env (ProjectSpec.name x)) spec.projects
  unfold finalizeAWXInstance
  split
  · rename_i tr1 e heq
    refine ⟨tr1, [], [], by simp, fun op hop => hjt op (by rw [heq]; exact hop),
      by simp, by simp⟩
  · rename_i tr1 u heq
    split
    · rename_i tr2 e heq2
      refine ⟨tr1, tr2, [], by simp, fun op hop => hjt op (by rw [heq]; exact hop),
        fun op hop => hiv op (by rw [heq2]; exact hop), by simp⟩
    · rename_i tr2 u2 heq2
      split
      rename_i tr3 r heq3
      refine ⟨tr1, tr2, tr3, rfl, fun op hop => hjt op (by rw [heq]; exact hop),
        fun op hop => hiv op (by rw [heq2]; exact hop),
        fun op hop => hpr op (by rw [heq3]; exact hop)⟩

/-- C6: during finalization the delete operations run as a job-template block,
then an inventory block, then a project block; the finalizer is removed
exactly when all three passes complete without error, and on any error it
stays in place. -/
theorem C6_finalize_order (env : AwxEnv) (spec : AWXInstanceSpec) :
    (∃ t1 t2 t3, (ReconcileDeleting env spec true).1 = t1 ++ t2 ++ t3 ∧
      (∀ op ∈ t1, opEndpoint op = "job_templates") ∧
      (∀ op ∈ t2, opEndpoint op = "inventories") ∧
      (∀ op ∈ t3, opEndpoint op = "projects")) ∧
    ((ReconcileDeleting env spec true).2.1 = false ↔
      (finalizeAWXInstance env spec).2 = Except.ok ()) ∧
    (∀ e, (ReconcileDeleting env spec true).2.2 = some e →
      (ReconcileDeleting env spec true).2.1 = true) := by
  rcases finalize_decompose env spec with ⟨t1, t2, t3, hdec, h1, h2, h3⟩
  unfold ReconcileDeleting
  simp only [if_true]
  split
  · rename_i tr e heq
    refine ⟨⟨t1, t2, t3, by rw [← hdec, heq], h1, h2, h3⟩, ?_, fun _ _ => rfl⟩
    rw [heq]
    simp
  · rename_i tr u heq
    refine ⟨⟨t1, t2, t3, by rw [← hdec, heq], h1, h2, h3⟩, ?_, fun e he => ?_⟩
    · rw [heq]
      cases u
      simp
    · exact absurd he (by simp)

/-- C6 witness: finalizing the empty declaration removes the finalizer with no
operations. -/
theorem C6_finalize_order_witness :
    (ReconcileDeleting emptyEnv emptySpec true).1 = [] ++ [] ++ [] ∧
    ((ReconcileDeleting emptyEnv emptySpec true).2.1 = false ↔
      (finalizeAWXInstance emptyEnv emptySpec).2 = Except.ok ()) := by
  rcases C6_finalize_order emptyEnv emptySpec with ⟨⟨t1, t2, t3, hdec, h1, h2, h3⟩, hiff, _⟩
  constructor
  · rfl
  · exact hiff

/-- Helper: applying a trace with no hosts-endpoint operation leaves a host
set unchanged. -/
theorem applyHostOps_frame (ops : List AwxOp) (st : List Obj × Int)
    (h : ∀ op ∈ ops, opEndpoint op ≠ "hosts") : applyHostOps ops st = st := by
  induction ops generalizing st with
  | nil => rfl
  | cons op rest ih =>
    have hop : applyHostOp st op = st := by
      have hne := h op (List.mem_cons_self op rest)
      cases op with
      | find e n => rfl
      | list e => rfl
      | getObj e i => rfl
      | create e data => exact if_neg hne
      | update e i data => exact if_neg hne
      | delete e i => exact if_neg hne
    show applyHostOps rest (applyHostOp st op) = st
    rw [hop]
    exact ih st (fun op2 hop2 => h op2 (List.mem_cons_of_mem op hop2))

/-- Helper: with no declared hosts, every operation of `EnsureInventory`
addresses the inventories endpoint. -/
theorem ensureInventory_empty_endpoint (env : AwxEnv) (iv : InventorySpec)
    (hempty : iv.hosts = []) :
    ∀ op ∈ (EnsureInventory env iv).1, opEndpoint op = "inventories" := by
  have hobj : ∀ invOpt, ∀ op ∈ (ensureInventoryObject env iv invOpt).1,
      opEndpoint op = "inventories" := by
    intro invOpt op hop
    unfold ensureInventoryObject at hop
    split at hop
    · split at hop
      · simp only [List.mem_cons, List.not_mem_nil, or_false] at hop; subst hop; rfl
      · split_ifs at hop <;>
          (simp only [List.mem_cons, List.not_mem_nil, or_false] at hop; subst hop; rfl)
    · split at hop
      · simp at hop
      · split at hop <;>
          (simp only [List.mem_cons, List.not_mem_nil, or_false] at hop; subst hop; rfl)
  intro op hop
  unfold EnsureInventory at hop
  rw [hempty] at hop
  split at hop
  · simp only [List.mem_cons, List.not_mem_nil, or_false] at hop; subst hop; rfl
  · split at hop
    · rename_i tr e heq
      simp only [List.mem_cons] at hop
      rcases hop with rfl | hop
      · rfl
      · exact hobj _ op (by rw [heq]; exact hop)
    · rename_i tr inventory heq
      split at hop
      · simp only [List.mem_cons] at hop
        rcases hop with rfl | hop
        · rfl
        · exact hobj _ op (by rw [heq]; exact hop)
      · rw [if_neg (by simp)] at hop
        simp only [List.mem_cons] at hop
        rcases hop with rfl | hop
        · rfl
        · exact hobj _ op (by rw [heq]; exact hop)

/-- C10: with an empty declared host list, `EnsureInventory` performs no host
operation at all — every operation addresses the inventories endpoint and the
remote host set of every inventory is left untouched — and
`IsInventoryInDesiredState` performs no remote operation and is independent of
the remote host state. -/
theorem C10_empty_hosts (env : AwxEnv) (iv : InventorySpec) (hs : List Obj) (nid : Int)
    (hempty : iv.hosts = []) :
    (∀ op ∈ (EnsureInventory env iv).1, opEndpoint op = "inventories") ∧
    applyHostOps (EnsureInventory env iv).1 (hs, nid) = (hs, nid) ∧
    (∀ inventory, (IsInventoryInDesiredState env inventory iv).1 = []) ∧
    (∀ inventory env2,
      IsInventoryInDesiredState env inventory iv =
        IsInventoryInDesiredState env2 inventory iv) := by
  have hend := ensureInventory_empty_endpoint env iv hempty
  refine ⟨hend, applyHostOps_frame _ _ (fun op hop => by rw [hend op hop]; decide), ?_, ?_⟩
  · intro inventory
    unfold IsInventoryInDesiredState
    rw [hempty, if_neg (show ¬(([] : List HostSpec).length > 0) by decide)]
    split_ifs <;> rfl
  · intro inventory env2
    unfold IsInventoryInDesiredState
    rw [hempty,
      if_neg (show ¬(([] : List HostSpec).length > 0) by decide),
      if_neg (show ¬(([] : List HostSpec).length > 0) by decide)]

/-- C10 witness: ensuring an inventory with no declared hosts against the
happy environment leaves a concrete remote host set unchanged. -/
theorem C10_empty_hosts_witness :
    applyHostOps (EnsureInventory happyEnv
        { name := "I1", description := "", vars := "", hosts := [] }).1
      ([[("id", JVal.num 3), ("name", JVal.str "h1")]], 10) =
      ([[("id", JVal.num 3), ("name", JVal.str "h1")]], 10) :=
  (C10_empty_hosts happyEnv { name := "I1", description := "", vars := "", hosts := [] }
    [[("id", JVal.num 3), ("name", JVal.str "h1")]] 10 rfl).2.1

/-- Helper: writing a status entry makes that entry hold the written value. -/
theorem setStatus_same (m : StatusMap) (k v : String) : setStatus m k v k = some v := by
  simp [setStatus]

/-- Helper: writing a status entry leaves every other entry unchanged. -/
theorem setStatus_ne (m : StatusMap) (k v n : String) (h : n ≠ k) :
    setStatus m k v n = m n := by
  simp [setStatus, h]

/-- Helper: when every ensure succeeds, the per-kind loop reports no error,
calls every resource in declaration order, marks each one "Reconciled" and
leaves every other status entry unchanged. -/
theorem reconcileKindLoop_ok {α : Type} (ensure : α → List AwxOp × Except String Obj)
    (nameOf : α → String) (statuses : StatusMap) (specs : List α)
    (hok : ∀ s ∈ specs, isOkE (ensure s).2 = true) :
    (reconcileKindLoop ensure nameOf statuses specs).2.2.2 = none ∧
    (reconcileKindLoop ensure nameOf statuses specs).2.1 = specs.map nameOf ∧
    (∀ n, n ∉ specs.map nameOf →
      (reconcileKindLoop ensure nameOf statuses specs).2.2.1 n = statuses n) ∧
    ((specs.map nameOf).Nodup → ∀ s ∈ specs,
      (reconcileKindLoop ensure nameOf statuses specs).2.2.1 (nameOf s) =
        some "Reconciled") := by
  induction specs generalizing statuses with
  | nil =>
    exact ⟨rfl, rfl, fun n _ => rfl, fun _ s hs => absurd hs (List.not_mem_nil s)⟩
  | cons s rest ih =>
    rcases h : ensure s with ⟨tr, r⟩
    cases r with
    | error e =>
      have := hok s (List.mem_cons_self s rest)
      rw [h] at this
      exact absurd this (by simp [isOkE])
    | ok o =>
      have hrest : ∀ x ∈ rest, isOkE (ensure x).2 = true :=
        fun x hx => hok x (List.mem_cons_of_mem s hx)
      rcases ih (setStatus statuses (nameOf s) "Reconciled") hrest with ⟨ih1, ih2, ih3, ih4⟩
      rcases hrec : reconcileKindLoop ensure nameOf
          (setStatus statuses (nameOf s) "Reconciled") rest with ⟨tr2, calls2, st2, err2⟩
      rw [hrec] at ih1 ih2 ih3 ih4
      have hloop : reconcileKindLoop ensure nameOf statuses (s :: rest) =
          (tr ++ tr2, nameOf s :: calls2, st2, err2) := by
        simp only [reconcileKindLoop, h, hrec]
      rw [hloop]
      refine ⟨ih1, by rw [List.map_cons, ← ih2], ?_, ?_⟩
      · intro n hn
        simp only [List.map_cons, List.mem_cons] at hn
        push_neg at hn
        rw [ih3 n hn.2, setStatus_ne statuses _ _ n hn.1]
      · intro hnodup x hx
        rw [List.map_cons] at hnodup
        rcases List.mem_cons.mp hx with rfl | hx2
        · rw [ih3 (nameOf x) (List.nodup_cons.mp hnodup).1, setStatus_same]
        · exact ih4 (List.nodup_cons.mp hnodup).2 x hx2

/-- Helper: when the ensures succeed up to the first failing resource, the
per-kind loop aborts there: it reports the failing error, calls exactly the
prefix plus the failing resource, marks the prefix "Reconciled" and the
failing resource "Failed: error", and leaves every other status entry
unchanged. -/
theorem reconcileKindLoop_fail {α : Type} (ensure : α → List AwxOp × Except String Obj)
    (nameOf : α → String) (statuses : StatusMap) (s1 : List α) (s : α) (s2 : List α)
    (e : String)
    (hok : ∀ x ∈ s1, isOkE (ensure x).2 = true)
    (hfail : (ensure s).2 = Except.error e) :
    (reconcileKindLoop ensure nameOf statuses (s1 ++ s :: s2)).2.2.2 = some e ∧
    (reconcileKindLoop ensure nameOf statuses (s1 ++ s :: s2)).2.1 =
      s1.map nameOf ++ [nameOf s] ∧
    (∀ n, n ∉ s1.map nameOf → n ≠ nameOf s →
      (reconcileKindLoop ensure nameOf statuses (s1 ++ s :: s2)).2.2.1 n = statuses n) ∧
    (reconcileKindLoop ensure nameOf statuses (s1 ++ s :: s2)).2.2.1 (nameOf s) =
      some ("Failed: " ++ e) ∧
    ((s1.map nameOf).Nodup → nameOf s ∉ s1.map nameOf → ∀ x ∈ s1,
      (reconcileKindLoop ensure nameOf statuses (s1 ++ s :: s2)).2.2.1 (nameOf x) =
        some "Reconciled") := by
  induction s1 generalizing statuses with
  | nil =>
    rcases h : ensure s with ⟨tr, r⟩
    rw [h] at hfail
    subst hfail
    have hloop : reconcileKindLoop ensure nameOf statuses ([] ++ s :: s2) =
        (tr, [nameOf s], setStatus statuses (nameOf s) ("Failed: " ++ e), some e) := by
      simp only [List.nil_append, reconcileKindLoop, h]
    rw [hloop]
    exact ⟨rfl, rfl, fun n _ hn => setStatus_ne statuses _ _ n hn,
      setStatus_same _ _ _, fun _ _ x hx => absurd hx (List.not_mem_nil x)⟩
  | cons x rest ih =>
    rcases h : ensure x with ⟨tr, r⟩
    cases r with
    | error e2 =>
      have := hok x (List.mem_cons_self x rest)
      rw [h] at this
      exact absurd this (by simp [isOkE])
    | ok o =>
      have hrest : ∀ y ∈ rest, isOkE (ensure y).2 = true :=
        fun y hy => hok y (List.mem_cons_of_mem x hy)
      rcases ih (setStatus statuses (nameOf x) "Reconciled") hrest with
        ⟨ih1, ih2, ih3, ih4, ih5⟩
      rcases hrec : reconcileKindLoop ensure nameOf
          (setStatus statuses (nameOf x) "Reconciled") (rest ++ s :: s2) with
        ⟨tr2, calls2, st2, err2⟩
      rw [hrec] at ih1 ih2 ih3 ih4 ih5
      have hloop : reconcileKindLoop ensure nameOf statuses ((x :: rest) ++ s :: s2) =
          (tr ++ tr2, nameOf x :: calls2, st2, err2) := by
        simp only [List.cons_append, reconcileKindLoop, List.append_eq, h, hrec]
      rw [hloop]
      refine ⟨ih1, by rw [List.map_cons, List.cons_append, ← ih2], ?_, ih4, ?_⟩
      · intro n hn hns
        simp only [List.map_cons, List.mem_cons] at hn
        push_neg at hn
        rw [ih3 n hn.2 hns, setStatus_ne statuses _ _ n hn.1]
      · intro hnodup hs y hy
        rw [List.map_cons] at hnodup
        have hnd := List.nodup_cons.mp hnodup
        have hs2 : nameOf s ∉ rest.map nameOf := by
          intro hcontra
          exact hs (by rw [List.map_cons]; exact List.mem_cons_of_mem _ hcontra)
        rcases List.mem_cons.mp hy with rfl | hy2
        · have hxs : nameOf y ≠ nameOf s := by
            intro hcontra
            exact hs (by rw [List.map_cons, hcontra]; exact List.mem_cons_self _ _)
          rw [ih3 (nameOf y) hnd.1 hxs, setStatus_same]
        · exact ih5 hnd.2 hs2 y hy2

/-- Helper: a nodup name list split around one element gives a nodup prefix
whose names avoid that element's name. -/
theorem nodup_split_facts {α β : Type} (f : α → β) (s1 : List α) (s : α) (s2 : List α)
    (h : ((s1 ++ s :: s2).map f).Nodup) : (s1.map f).Nodup ∧ f s ∉ s1.map f := by
  rw [List.map_append] at h
  refine ⟨h.of_append_left, fun hin => ?_⟩
  exact (List.disjoint_of_nodup_append h) hin
    (by rw [List.map_cons]; exact List.mem_cons_self _ _)

/-- C5: the per-kind pass ensures every declared resource in order (projects,
then inventories, then job templates), marking each success "Reconciled"; the
first failure marks that resource "Failed: error" and aborts the pass, so no
later resource is ensured, and the entries already marked "Reconciled" this
pass stay "Reconciled". -/
theorem C5_reconcileEach (env : AwxEnv) (spec : AWXInstanceSpec) (st : AWXStatus)
    (hnp : (spec.projects.map ProjectSpec.name).Nodup)
    (hni : (spec.inventories.map InventorySpec.name).Nodup)
    (hnj : (spec.jobTemplates.map JobTemplateSpec.name).Nodup) :
    ((∀ p ∈ spec.projects, isOkE (EnsureProject env p).2 = true) →
      (∀ iv ∈ spec.inventories, isOkE (EnsureInventory env iv).2 = true) →
      (∀ j ∈ spec.jobTemplates, isOkE (EnsureJobTemplate env j).2 = true) →
      (reconcileEach env spec st).err = none ∧
      (reconcileEach env spec st).requeueAfterSeconds = 30 ∧
      (reconcileEach env spec st).calls =
        spec.projects.map (fun p => ("project", p.name)) ++
        spec.inventories.map (fun iv => ("inventory", iv.name)) ++
        spec.jobTemplates.map (fun j => ("jobTemplate", j.name)) ∧
      (∀ p ∈ spec.projects,
        (reconcileEach env spec st).status.projectStatuses p.name = some "Reconciled") ∧
      (∀ iv ∈ spec.inventories,
        (reconcileEach env spec st).status.inventoryStatuses iv.name = some "Reconciled") ∧
      (∀ j ∈ spec.jobTemplates,
        (reconcileEach env spec st).status.jobTemplateStatuses j.name =
          some "Reconciled") ∧
      (reconcileEach env spec st).status.ready = some (true, "ReconciliationSucceeded")) ∧
    (∀ ps1 p ps2 e, spec.projects = ps1 ++ p :: ps2 →
      (∀ x ∈ ps1, isOkE (EnsureProject env x).2 = true) →
      (EnsureProject env p).2 = Except.error e →
      (reconcileEach env spec st).err = some e ∧
      (reconcileEach env spec st).requeueAfterSeconds = 60 ∧
      (reconcileEach env spec st).calls =
        ps1.map (fun x => ("project", x.name)) ++ [("project", p.name)] ∧
      (∀ x ∈ ps1,
        (reconcileEach env spec st).status.projectStatuses x.name = some "Reconciled") ∧
      (reconcileEach env spec st).status.projectStatuses p.name =
        some ("Failed: " ++ e) ∧
      (∀ n, n ∉ ps1.map ProjectSpec.name → n ≠ p.name →
        (reconcileEach env spec st).status.projectStatuses n = st.projectStatuses n) ∧
      (reconcileEach env spec st).status.inventoryStatuses = st.inventoryStatuses ∧
      (reconcileEach env spec st).status.jobTemplateStatuses =
        st.jobTemplateStatuses) ∧
    (∀ is1 iv is2 e, spec.inventories = is1 ++ iv :: is2 →
      (∀ p ∈ spec.projects, isOkE (EnsureProject env p).2 = true) →
      (∀ x ∈ is1, isOkE (EnsureInventory env x).2 = true) →
      (EnsureInventory env iv).2 = Except.error e →
      (reconcileEach env spec st).err = some e ∧
      (reconcileEach env spec st).requeueAfterSeconds = 60 ∧
      (reconcileEach env spec st).calls =
        spec.projects.map (fun p => ("project", p.name)) ++
        (is1.map (fun x => ("inventory", x.name)) ++ [("inventory", iv.name)]) ∧
      (∀ p ∈ spec.projects,
        (reconcileEach env spec st).status.projectStatuses p.name = some "Reconciled") ∧
      (∀ x ∈ is1,
        (reconcileEach env spec st).status.inventoryStatuses x.name = some "Reconciled") ∧
      (reconcileEach env spec st).status.inventoryStatuses iv.name =
        some ("Failed: " ++ e) ∧
      (reconcileEach env spec st).status.jobTemplateStatuses =
        st.jobTemplateStatuses) ∧
    (∀ js1 j js2 e, spec.jobTemplates = js1 ++ j :: js2 →
      (∀ p ∈ spec.projects, isOkE (EnsureProject env p).2 = true) →
      (∀ iv ∈ spec.inventories, isOkE (EnsureInventory env iv).2 = true) →
      (∀ x ∈ js1, isOkE (EnsureJobTemplate env x).2 = true) →
      (EnsureJobTemplate env j).2 = Except.error e →
      (reconcileEach env spec st).err = some e ∧
      (reconcileEach env spec st).requeueAfterSeconds = 60 ∧
      (reconcileEach env spec st).calls =
        spec.projects.map (fun p => ("project", p.name)) ++
        spec.inventories.map (fun iv => ("inventory", iv.name)) ++
        (js1.map (fun x => ("jobTemplate", x.name)) ++ [("jobTemplate", j.name)]) ∧
      (∀ p ∈ spec.projects,
        (reconcileEach env spec st).status.projectStatuses p.name = some "Reconciled") ∧
      (∀ iv ∈ spec.inventories,
        (reconcileEach env spec st).status.inventoryStatuses iv.name = some "Reconciled") ∧
      (∀ x ∈ js1,
        (reconcileEach env spec st).status.jobTemplateStatuses x.name =
          some "Reconciled") ∧
      (reconcileEach env spec st).status.jobTemplateStatuses j.name =
        some ("Failed: " ++ e)) := by
  refine ⟨?_, ?_, ?_, ?_⟩
  · intro hokp hoki hokj
    rcases reconcileKindLoop_ok (EnsureProject env) ProjectSpec.name st.projectStatuses
      spec.projects hokp with ⟨e1, c1, u1, r1⟩
    rcases h1 : reconcileKindLoop (EnsureProject env) ProjectSpec.name st.projectStatuses
      spec.projects with ⟨tr1, calls1, pst, err1⟩
    rw [h1] at e1 c1 u1 r1
    have he1 : err1 = none := e1
    subst he1
    rcases reconcileKindLoop_ok (EnsureInventory env) InventorySpec.name
      st.inventoryStatuses spec.inventories hoki with ⟨e2, c2, u2, r2⟩
    rcases h2 : reconcileKindLoop (EnsureInventory env) InventorySpec.name
      st.inventoryStatuses spec.inventories with ⟨tr2, calls2, ist, err2⟩
    rw [h2] at e2 c2 u2 r2
    have he2 : err2 = none := e2
    subst he2
    rcases reconcileKindLoop_ok (EnsureJobTemplate env) JobTemplateSpec.name
      st.jobTemplateStatuses spec.jobTemplates hokj with ⟨e3, c3, u3, r3⟩
    rcases h3 : reconcileKindLoop (EnsureJobTemplate env) JobTemplateSpec.name
      st.jobTemplateStatuses spec.jobTemplates with ⟨tr3, calls3, jst, err3⟩
    rw [h3] at e3 c3 u3 r3
    have he3 : err3 = none := e3
    subst he3
    have hE : reconcileEach env spec st =
        { requeueAfterSeconds := 30, err := none,
          status := { st with projectStatuses := pst, inventoryStatuses := ist,
                              jobTemplateStatuses := jst,
                              ready := some (true, "ReconciliationSucceeded") },
          trace := tr1 ++ tr2 ++ tr3,
          calls := calls1.map (fun n => ("project", n))
            ++ calls2.map (fun n => ("inventory", n))
            ++ calls3.map (fun n => ("jobTemplate", n)) } := by
      simp only [reconcileEach, h1, h2, h3]
    rw [hE]
    refine ⟨rfl, rfl, ?_, fun p hp => r1 hnp p hp, fun iv hiv => r2 hni iv hiv,
      fun j hj => r3 hnj j hj, rfl⟩
    show calls1.map (fun n => ("project", n)) ++ calls2.map (fun n => ("inventory", n))
        ++ calls3.map (fun n => ("jobTemplate", n)) = _
    have hc1 : calls1 = spec.projects.map ProjectSpec.name := c1
    have hc2 : calls2 = spec.inventories.map InventorySpec.name := c2
    have hc3 : calls3 = spec.jobTemplates.map JobTemplateSpec.name := c3
    rw [hc1, hc2, hc3, List.map_map, List.map_map, List.map_map]
    rfl
  · intro ps1 p ps2 e hsplit hok1 hfail
    rcases nodup_split_facts ProjectSpec.name ps1 p ps2 (by rw [← hsplit]; exact hnp)
      with ⟨hnd1, hnm1⟩
    rcases reconcileKindLoop_fail (EnsureProject env) ProjectSpec.name st.projectStatuses
      ps1 p ps2 e hok1 hfail with ⟨f1, f2, f3, f4, f5⟩
    rw [← hsplit] at f1 f2 f3 f4 f5
    rcases h1 : reconcileKindLoop (EnsureProject env) ProjectSpec.name st.projectStatuses
      spec.projects with ⟨tr1, calls1, pst, err1⟩
    rw [h1] at f1 f2 f3 f4 f5
    have he1 : err1 = some e := f1
    subst he1
    have hE : reconcileEach env spec st =
        { requeueAfterSeconds := 60, err := some e,
          status := { st with projectStatuses := pst },
          trace := tr1, calls := calls1.map (fun n => ("project", n)) } := by
      simp only [reconcileEach, h1]
    rw [hE]
    refine ⟨rfl, rfl, ?_, fun x hx => f5 hnd1 hnm1 x hx, f4, fun n hn hne => f3 n hn hne,
      rfl, rfl⟩
    show calls1.map (fun n => ("project", n)) = _
    have hc1 : calls1 = ps1.map ProjectSpec.name ++ [p.name] := f2
    rw [hc1, List.map_append, List.map_map]
    rfl
  · intro is1 iv is2 e hsplit hokp hok1 hfail
    rcases nodup_split_facts InventorySpec.name is1 iv is2 (by rw [← hsplit]; exact hni)
      with ⟨hnd1, hnm1⟩
    rcases reconcileKindLoop_ok (EnsureProject env) ProjectSpec.name st.projectStatuses
      spec.projects hokp with ⟨e1, c1, u1, r1⟩
    rcases h1 : reconcileKindLoop (EnsureProject env) ProjectSpec.name st.projectStatuses
      spec.projects with ⟨tr1, calls1, pst, err1⟩
    rw [h1] at e1 c1 u1 r1
    have he1 : err1 = none := e1
    subst he1
    rcases reconcileKindLoop_fail (EnsureInventory env) InventorySpec.name
      st.inventoryStatuses is1 iv is2 e hok1 hfail with ⟨f1, f2, f3, f4, f5⟩
    rw [← hsplit] at f1 f2 f3 f4 f5
    rcases h2 : reconcileKindLoop (EnsureInventory env) InventorySpec.name
      st.inventoryStatuses spec.inventories with ⟨tr2, calls2, ist, err2⟩
    rw [h2] at f1 f2 f3 f4 f5
    have he2 : err2 = some e := f1
    subst he2
    have hE : reconcileEach env spec st =
        { requeueAfterSeconds := 60, err := some e,
          status := { st with projectStatuses := pst, inventoryStatuses := ist },
          trace := tr1 ++ tr2,
          calls := calls1.map (fun n => ("project", n))
            ++ calls2.map (fun n => ("inventory", n)) } := by
      simp only [reconcileEach, h1, h2]
    rw [hE]
    refine ⟨rfl, rfl, ?_, fun x hx => r1 hnp x hx, fun x hx => f5 hnd1 hnm1 x hx, f4, rfl⟩
    show calls1.map (fun n => ("project", n)) ++ calls2.map (fun n => ("inventory", n)) = _
    have hc1 : calls1 = spec.projects.map ProjectSpec.name := c1
    have hc2 : calls2 = is1.map InventorySpec.name ++ [iv.name] := f2
    rw [hc1, hc2, List.map_append, List.map_map, List.map_map]
    rfl
  · intro js1 j js2 e hsplit hokp hoki hok1 hfail
    rcases nodup_split_facts JobTemplateSpec.name js1 j js2 (by rw [← hsplit]; exact hnj)
      with ⟨hnd1, hnm1⟩
    rcases reconcileKindLoop_ok (EnsureProject env) ProjectSpec.name st.projectStatuses
      spec.projects hokp with ⟨e1, c1, u1, r1⟩
    rcases h1 : reconcileKindLoop (EnsureProject env) ProjectSpec.name st.projectStatuses
      spec.projects with ⟨tr1, calls1, pst, err1⟩
    rw [h1] at e1 c1 u1 r1
    have he1 : err1 = none := e1
    subst he1
    rcases reconcileKindLoop_ok (EnsureInventory env) InventorySpec.name
      st.inventoryStatuses spec.inventories hoki with ⟨e2, c2, u2, r2⟩
    rcases h2 : reconcileKindLoop (EnsureInventory env) InventorySpec.name
      st.inventoryStatuses spec.inventories with ⟨tr2, calls2, ist, err2⟩
    rw [h2] at e2 c2 u2 r2
    have he2 : err2 = none := e2
    subst he2
    rcases reconcileKindLoop_fail (EnsureJobTemplate env) JobTemplateSpec.name
      st.jobTemplateStatuses js1 j js2 e hok1 hfail with ⟨f1, f2, f3, f4, f5⟩
    rw [← hsplit] at f1 f2 f3 f4 f5
    rcases h3 : reconcileKindLoop (EnsureJobTemplate env) JobTemplateSpec.name
      st.jobTemplateStatuses spec.jobTemplates with ⟨tr3, calls3, jst, err3⟩
    rw [h3] at f1 f2 f3 f4 f5
    have he3 : err3 = some e := f1
    subst he3
    have hE : reconcileEach env spec st =
        { requeueAfterSeconds := 60, err := some e,
          status := { st with projectStatuses := pst, inventoryStatuses := ist,
                              jobTemplateStatuses := jst },
          trace := tr1 ++ tr2 ++ tr3,
          calls := calls1.map (fun n => ("project", n))
            ++ calls2.map (fun n => ("inventory", n))
            ++ calls3.map (fun n => ("jobTemplate", n)) } := by
      simp only [reconcileEach, h1, h2, h3]
    rw [hE]
    refine ⟨rfl, rfl, ?_, fun x hx => r1 hnp x hx, fun x hx => r2 hni x hx,
      fun x hx => f5 hnd1 hnm1 x hx, f4⟩
    show calls1.map (fun n => ("project", n)) ++ calls2.map (fun n => ("inventory", n))
        ++ calls3.map (fun n => ("jobTemplate", n)) = _
    have hc1 : calls1 = spec.projects.map ProjectSpec.name := c1
    have hc2 : calls2 = spec.inventories.map InventorySpec.name := c2
    have hc3 : calls3 = js1.map JobTemplateSpec.name ++ [j.name] := f2
    rw [hc1, hc2, hc3, List.map_append, List.map_map, List.map_map, List.map_map]
    rfl

/-- C5 witness: declaring "P1" then "BAD" against `mixedEnv`, the pass ensures
"P1" (marked "Reconciled"), fails on "BAD" (marked "Failed: ..."), and calls
exactly those two resources in order. -/
theorem C5_reconcileEach_witness :
    (reconcileEach mixedEnv c5Spec emptyStatus).err =
      some "failed to check if project exists: boom" ∧
    (reconcileEach mixedEnv c5Spec emptyStatus).status.projectStatuses "P1" =
      some "Reconciled" ∧
    (reconcileEach mixedEnv c5Spec emptyStatus).status.projectStatuses "BAD" =
      some "Failed: failed to check if project exists: boom" ∧
    (reconcileEach mixedEnv c5Spec emptyStatus).calls =
      [("project", "P1"), ("project", "BAD")] := by
  have h := (C5_reconcileEach mixedEnv c5Spec emptyStatus (by decide) (by decide)
      (by decide)).2.1 [p1Spec] badSpec []
      "failed to check if project exists: boom" rfl
      (by intro x hx; simp only [List.mem_singleton] at hx; subst hx; decide) rfl
  exact ⟨h.1, h.2.2.2.1 p1Spec (List.mem_singleton.mpr rfl), h.2.2.2.2.1, h.2.2.1⟩

/-- Helper: the empty trace deletes nothing. -/
theorem hostDeletesOnly_nil : hostDeletesOnly [] :=
  fun op hop => absurd hop (List.not_mem_nil op)

/-- Helper: extending a hosts-only trace by a hosts-only operation. -/
theorem hostDeletesOnly_cons {op : AwxOp} {ops : List AwxOp}
    (h1 : isDeleteOp op = true → opEndpoint op = "hosts") (h2 : hostDeletesOnly ops) :
    hostDeletesOnly (op :: ops) := by
  intro o ho hdel
  rcases List.mem_cons.mp ho with rfl | ho2
  · exact h1 hdel
  · exact h2 o ho2 hdel

/-- Helper: concatenating hosts-only traces. -/
theorem hostDeletesOnly_append {a b : List AwxOp}
    (ha : hostDeletesOnly a) (hb : hostDeletesOnly b) : hostDeletesOnly (a ++ b) := by
  intro o ho hdel
  rcases List.mem_append.mp ho with h | h
  · exact ha o h hdel
  · exact hb o h hdel

/-- Helper: a singleton non-delete trace is hosts-only. -/
theorem hostDeletesOnly_single {op : AwxOp}
    (h : isDeleteOp op = true → opEndpoint op = "hosts") : hostDeletesOnly [op] :=
  hostDeletesOnly_cons h hostDeletesOnly_nil

/-- Helper: transfer a hosts-only trace fact across a result equation. -/
theorem hdo_of_eq {β : Type} {f : List AwxOp × β} {tr : List AwxOp} {r : β}
    (heq : f = (tr, r)) (h : hostDeletesOnly f.1) : hostDeletesOnly tr := by
  rw [heq] at h; exact h

/-- Helper: the credential-resolution phase of `EnsureProject` deletes
nothing. -/
theorem resolveProjectCredential_hdo (env : AwxEnv) (ps : ProjectSpec) (d : Obj) :
    hostDeletesOnly (resolveProjectCredential env ps d).1 := by
  unfold resolveProjectCredential
  split
  · exact hostDeletesOnly_nil
  · split
    · exact hostDeletesOnly_single (fun h => absurd h Bool.false_ne_true)
    · exact hostDeletesOnly_single (fun h => absurd h Bool.false_ne_true)
    · split
      · exact hostDeletesOnly_single (fun h => absurd h Bool.false_ne_true)
      · exact hostDeletesOnly_single (fun h => absurd h Bool.false_ne_true)

/-- Helper: `EnsureProject` deletes nothing. -/
theorem EnsureProject_hdo (env : AwxEnv) (ps : ProjectSpec) :
    hostDeletesOnly (EnsureProject env ps).1 := by
  unfold EnsureProject
  split
  · exact hostDeletesOnly_single (fun h => absurd h Bool.false_ne_true)
  · split
    · rename_i tr e heq
      exact hostDeletesOnly_cons (fun h => absurd h Bool.false_ne_true)
        (hdo_of_eq heq (resolveProjectCredential_hdo env ps (projectDataFields ps)))
    · rename_i tr pd heq
      have htr : hostDeletesOnly tr :=
        hdo_of_eq heq (resolveProjectCredential_hdo env ps (projectDataFields ps))
      split
      · split
        · exact hostDeletesOnly_cons (fun h => absurd h Bool.false_ne_true)
            (hostDeletesOnly_append htr
              (hostDeletesOnly_single (fun h => absurd h Bool.false_ne_true)))
        · split
          · exact hostDeletesOnly_cons (fun h => absurd h Bool.false_ne_true)
              (hostDeletesOnly_append htr
                (hostDeletesOnly_single (fun h => absurd h Bool.false_ne_true)))
          · exact hostDeletesOnly_cons (fun h => absurd h Bool.false_ne_true)
              (hostDeletesOnly_append htr
                (hostDeletesOnly_single (fun h => absurd h Bool.false_ne_true)))
      · split
        · exact hostDeletesOnly_cons (fun h => absurd h Bool.false_ne_true) htr
        · split
          · exact hostDeletesOnly_cons (fun h => absurd h Bool.false_ne_true)
              (hostDeletesOnly_append htr
                (hostDeletesOnly_single (fun h => absurd h Bool.false_ne_true)))
          · exact hostDeletesOnly_cons (fun h => absurd h Bool.false_ne_true)
              (hostDeletesOnly_append htr
                (hostDeletesOnly_single (fun h => absurd h Bool.false_ne_true)))

/-- Helper: the host create-or-update loop deletes nothing. -/
theorem upsertHosts_hdo (env : AwxEnv) (invId : Int) (m : List (String × Obj))
    (ds : List HostSpec) : hostDeletesOnly (upsertHosts env invId m ds).1 := by
  induction ds with
  | nil => exact hostDeletesOnly_nil
  | cons d rest ih =>
    unfold upsertHosts
    split
    · split
      · exact hostDeletesOnly_nil
      · split
        · exact hostDeletesOnly_single (fun h => absurd h Bool.false_ne_true)
        · split
          rename_i tr r heq
          exact hostDeletesOnly_cons (fun h => absurd h Bool.false_ne_true)
            (hdo_of_eq heq ih)
    · split
      · exact hostDeletesOnly_single (fun h => absurd h Bool.false_ne_true)
      · split
        rename_i tr r heq
        exact hostDeletesOnly_cons (fun h => absurd h Bool.false_ne_true)
          (hdo_of_eq heq ih)

/-- Helper: the host pruning loop deletes only hosts. -/
theorem deleteExtraHosts_hdo (env : AwxEnv) (names : List String)
    (m : List (String × Obj)) : hostDeletesOnly (deleteExtraHosts env names m).1 := by
  induction m with
  | nil => exact hostDeletesOnly_nil
  | cons nh rest ih =>
    rcases nh with ⟨n, h⟩
    unfold deleteExtraHosts
    split
    · exact ih
    · split
      · exact hostDeletesOnly_nil
      · split
        · exact hostDeletesOnly_single (fun _ => rfl)
        · split
          rename_i tr r heq
          exact hostDeletesOnly_cons (fun _ => rfl) (hdo_of_eq heq ih)

/-- Helper: `reconcileHosts` deletes only hosts. -/
theorem reconcileHosts_hdo (env : AwxEnv) (invId : Int) (ds : List HostSpec) :
    hostDeletesOnly (reconcileHosts env invId ds).1 := by
  unfold reconcileHosts
  split
  · exact hostDeletesOnly_single (fun h => absurd h Bool.false_ne_true)
  · rename_i hosts heq
    split
    · rename_i tup tr e hequ
      exact hostDeletesOnly_cons (fun h => absurd h Bool.false_ne_true)
        (hdo_of_eq hequ (upsertHosts_hdo env invId (buildHostMap hosts) ds))
    · rename_i tup tr u hequ
      have htr : hostDeletesOnly tr :=
        hdo_of_eq hequ (upsertHosts_hdo env invId (buildHostMap hosts) ds)
      split <;>
        (rename_i tr2 r2 heqd;
         exact hostDeletesOnly_cons (fun h => absurd h Bool.false_ne_true)
           (hostDeletesOnly_append htr
             (hdo_of_eq heqd (deleteExtraHosts_hdo env (ds.map HostSpec.name)
               (buildHostMap hosts)))))

/-- Helper: the inventory create-or-update phase deletes nothing. -/
theorem ensureInventoryObject_hdo (env : AwxEnv) (iv : InventorySpec)
    (invOpt : Option Obj) : hostDeletesOnly (ensureInventoryObject env iv invOpt).1 := by
  unfold ensureInventoryObject
  split
  · split
    · exact hostDeletesOnly_single (fun h => absurd h Bool.false_ne_true)
    · split
      · exact hostDeletesOnly_single (fun h => absurd h Bool.false_ne_true)
      · exact hostDeletesOnly_single (fun h => absurd h Bool.false_ne_true)
  · split
    · exact hostDeletesOnly_nil
    · split
      · exact hostDeletesOnly_single (fun h => absurd h Bool.false_ne_true)
      · exact hostDeletesOnly_single (fun h => absurd h Bool.false_ne_true)

/-- Helper: `EnsureInventory` deletes only hosts. -/
theorem EnsureInventory_hdo (env : AwxEnv) (iv : InventorySpec) :
    hostDeletesOnly (EnsureInventory env iv).1 := by
  unfold EnsureInventory
  split
  · exact hostDeletesOnly_single (fun h => absurd h Bool.false_ne_true)
  · split
    · rename_i invOpt tup tr e heq
      exact hostDeletesOnly_cons (fun h => absurd h Bool.false_ne_true)
        (hdo_of_eq heq (ensureInventoryObject_hdo env iv _))
    · rename_i invOpt tup tr inventory heq
      have htr : hostDeletesOnly tr := hdo_of_eq heq (ensureInventoryObject_hdo env iv _)
      split
      · exact hostDeletesOnly_cons (fun h => absurd h Bool.false_ne_true) htr
      · split
        · split <;>
            (rename_i tr2 r2 heqh;
             exact hostDeletesOnly_cons (fun h => absurd h Bool.false_ne_true)
               (hostDeletesOnly_append htr (hdo_of_eq heqh (reconcileHosts_hdo env _ iv.hosts))))
        · exact hostDeletesOnly_cons (fun h => absurd h Bool.false_ne_true) htr

/-- Helper: the job template comparison deletes nothing. -/
theorem jtInventoryCheck_hdo (env : AwxEnv) (jobTemplate : Obj) (jts : JobTemplateSpec) :
    hostDeletesOnly (jtInventoryCheck env jobTemplate jts).1 := by
  unfold jtInventoryCheck
  split
  · exact hostDeletesOnly_nil
  · split <;> exact hostDeletesOnly_nil
  · split
    · exact hostDeletesOnly_single (fun h => absurd h Bool.false_ne_true)
    · split <;> exact hostDeletesOnly_single (fun h => absurd h Bool.false_ne_true)
  · exact hostDeletesOnly_nil

/-- Helper: the job template desired-state comparison deletes nothing. -/
theorem IsJobTemplateInDesiredState_hdo (env : AwxEnv) (jobTemplate : Obj)
    (jts : JobTemplateSpec) :
    hostDeletesOnly (IsJobTemplateInDesiredState env jobTemplate jts).1 := by
  unfold IsJobTemplateInDesiredState
  split_ifs
  · exact hostDeletesOnly_nil
  · exact hostDeletesOnly_nil
  · exact hostDeletesOnly_nil
  · split
    · exact hostDeletesOnly_nil
    · split
      · exact hostDeletesOnly_nil
      · exact jtInventoryCheck_hdo env jobTemplate jts
    · split
      · exact hostDeletesOnly_single (fun h => absurd h Bool.false_ne_true)
      · split
        · exact hostDeletesOnly_single (fun h => absurd h Bool.false_ne_true)
        · split
          rename_i ctr b heq
          refine hostDeletesOnly_cons (fun h => absurd h Bool.false_ne_true) ?_
          have := jtInventoryCheck_hdo env jobTemplate jts
          rw [heq] at this; exact this
    · exact hostDeletesOnly_nil

/-- Helper: the inventory desired-state comparison deletes nothing. -/
theorem IsInventoryInDesiredState_hdo (env : AwxEnv) (inventory : Obj)
    (iv : InventorySpec) :
    hostDeletesOnly (IsInventoryInDesiredState env inventory iv).1 := by
  unfold IsInventoryInDesiredState
  split_ifs
  · exact hostDeletesOnly_nil
  · exact hostDeletesOnly_nil
  · exact hostDeletesOnly_nil
  · split
    · exact hostDeletesOnly_nil
    · split
      · exact hostDeletesOnly_single (fun h => absurd h Bool.false_ne_true)
      · exact hostDeletesOnly_single (fun h => absurd h Bool.false_ne_true)
  · exact hostDeletesOnly_nil

/-- Helper: the job template create-or-update phase deletes nothing. -/
theorem ensureJobTemplateObject_hdo (env : AwxEnv) (jts : JobTemplateSpec)
    (jtOpt : Option Obj) (projectID inventoryID : Int) :
    hostDeletesOnly (ensureJobTemplateObject env jts jtOpt projectID inventoryID).1 := by
  unfold ensureJobTemplateObject
  split
  · split
    · exact hostDeletesOnly_single (fun h => absurd h Bool.false_ne_true)
    · split
      · exact hostDeletesOnly_single (fun h => absurd h Bool.false_ne_true)
      · exact hostDeletesOnly_single (fun h => absurd h Bool.false_ne_true)
  · split
    · exact hostDeletesOnly_nil
    · split
      · exact hostDeletesOnly_single (fun h => absurd h Bool.false_ne_true)
      · exact hostDeletesOnly_single (fun h => absurd h Bool.false_ne_true)

/-- Helper: `EnsureJobTemplate` deletes nothing. -/
theorem EnsureJobTemplate_hdo (env : AwxEnv) (jts : JobTemplateSpec) :
    hostDeletesOnly (EnsureJobTemplate env jts).1 := by
  have hfind : ∀ e n, isDeleteOp (AwxOp.find e n) = true → opEndpoint (AwxOp.find e n) = "hosts" :=
    fun e n h => absurd h Bool.false_ne_true
  unfold EnsureJobTemplate
  split
  · exact hostDeletesOnly_single (hfind _ _)
  · split
    · exact hostDeletesOnly_cons (hfind _ _) (hostDeletesOnly_single (hfind _ _))
    · exact hostDeletesOnly_cons (hfind _ _) (hostDeletesOnly_single (hfind _ _))
    · split
      · exact hostDeletesOnly_cons (hfind _ _) (hostDeletesOnly_single (hfind _ _))
      · split
        · exact hostDeletesOnly_cons (hfind _ _) (hostDeletesOnly_cons (hfind _ _)
            (hostDeletesOnly_single (hfind _ _)))
        · exact hostDeletesOnly_cons (hfind _ _) (hostDeletesOnly_cons (hfind _ _)
            (hostDeletesOnly_single (hfind _ _)))
        · split
          · exact hostDeletesOnly_cons (hfind _ _) (hostDeletesOnly_cons (hfind _ _)
              (hostDeletesOnly_single (hfind _ _)))
          · split
            rename_i tr r heq
            exact hostDeletesOnly_cons (hfind _ _) (hostDeletesOnly_cons (hfind _ _)
              (hostDeletesOnly_cons (hfind _ _)
                (hdo_of_eq heq (ensureJobTemplateObject_hdo env jts _ _ _))))

/-- Helper: a per-kind loop whose ensure deletes only hosts deletes only
hosts. -/
theorem reconcileKindLoop_hdo {α : Type} (ensure : α → List AwxOp × Except String Obj)
    (nameOf : α → String) (statuses : StatusMap) (specs : List α)
    (hens : ∀ s, hostDeletesOnly (ensure s).1) :
    hostDeletesOnly (reconcileKindLoop ensure nameOf statuses specs).1 := by
  induction specs generalizing statuses with
  | nil => exact hostDeletesOnly_nil
  | cons s rest ih =>
    unfold reconcileKindLoop
    split
    · rename_i tr e heq
      exact hdo_of_eq heq (hens s)
    · rename_i tr o heq
      split
      rename_i tr2 calls2 st2 err2 heq2
      exact hostDeletesOnly_append (hdo_of_eq heq (hens s)) (hdo_of_eq heq2 (ih _))

/-- Helper: the project drift pass deletes nothing. -/
theorem driftProjects_hdo (env : AwxEnv) (statuses : StatusMap) (specs : List ProjectSpec) :
    hostDeletesOnly (driftProjects env statuses specs).1 := by
  induction specs generalizing statuses with
  | nil => exact hostDeletesOnly_nil
  | cons ps rest ih =>
    unfold driftProjects
    split
    · exact hostDeletesOnly_single (fun h => absurd h Bool.false_ne_true)
    · split
      · split
        rename_i tr2 st2 ch2 err2 heq2
        exact hostDeletesOnly_cons (fun h => absurd h Bool.false_ne_true)
          (hdo_of_eq heq2 (ih _))
      · split
        · rename_i tup tr e heq
          exact hostDeletesOnly_cons (fun h => absurd h Bool.false_ne_true)
            (hdo_of_eq heq (EnsureProject_hdo env ps))
        · rename_i tup tr o heq
          split
          rename_i tr2 st2 ch2 err2 heq2
          exact hostDeletesOnly_cons (fun h => absurd h Bool.false_ne_true)
            (hostDeletesOnly_append (hdo_of_eq heq (EnsureProject_hdo env ps))
              (hdo_of_eq heq2 (ih _)))
    · split
      · rename_i tup tr e heq
        exact hostDeletesOnly_cons (fun h => absurd h Bool.false_ne_true)
          (hdo_of_eq heq (EnsureProject_hdo env ps))
      · rename_i tup tr o heq
        split
        rename_i tr2 st2 ch2 err2 heq2
        exact hostDeletesOnly_cons (fun h => absurd h Bool.false_ne_true)
          (hostDeletesOnly_append (hdo_of_eq heq (EnsureProject_hdo env ps))
            (hdo_of_eq heq2 (ih _)))

/-- Helper: the inventory drift pass deletes only hosts. -/
theorem driftInventories_hdo (env : AwxEnv) (statuses : StatusMap)
    (specs : List InventorySpec) :
    hostDeletesOnly (driftInventories env statuses specs).1 := by
  induction specs generalizing statuses with
  | nil => exact hostDeletesOnly_nil
  | cons iv rest ih =>
    unfold driftInventories
    split
    · exact hostDeletesOnly_single (fun h => absurd h Bool.false_ne_true)
    · rename_i inventory heqf
      split
      · rename_i ctr heqc
        split
        rename_i tr2 st2 ch2 err2 heq2
        exact hostDeletesOnly_cons (fun h => absurd h Bool.false_ne_true)
          (hostDeletesOnly_append
            (hdo_of_eq heqc (IsInventoryInDesiredState_hdo env inventory iv))
            (hdo_of_eq heq2 (ih _)))
      · rename_i ctr heqc
        split
        · rename_i tup tr e heq
          exact hostDeletesOnly_cons (fun h => absurd h Bool.false_ne_true)
            (hostDeletesOnly_append
              (hdo_of_eq heqc (IsInventoryInDesiredState_hdo env inventory iv))
              (hdo_of_eq heq (EnsureInventory_hdo env iv)))
        · rename_i tup tr o heq
          split
          rename_i tr2 st2 ch2 err2 heq2
          exact hostDeletesOnly_cons (fun h => absurd h Bool.false_ne_true)
            (hostDeletesOnly_append
              (hdo_of_eq heqc (IsInventoryInDesiredState_hdo env inventory iv))
              (hostDeletesOnly_append (hdo_of_eq heq (EnsureInventory_hdo env iv))
                (hdo_of_eq heq2 (ih _))))
    · split
      · rename_i tup tr e heq
        exact hostDeletesOnly_cons (fun h => absurd h Bool.false_ne_true)
          (hdo_of_eq heq (EnsureInventory_hdo env iv))
      · rename_i tup tr o heq
        split
        rename_i tr2 st2 ch2 err2 heq2
        exact hostDeletesOnly_cons (fun h => absurd h Bool.false_ne_true)
          (hostDeletesOnly_append (hdo_of_eq heq (EnsureInventory_hdo env iv))
            (hdo_of_eq heq2 (ih _)))

/-- Helper: the job template drift pass deletes nothing. -/
theorem driftJobTemplates_hdo (env : AwxEnv) (statuses : StatusMap)
    (specs : List JobTemplateSpec) :
    hostDeletesOnly (driftJobTemplates env statuses specs).1 := by
  induction specs generalizing statuses with
  | nil => exact hostDeletesOnly_nil
  | cons jts rest ih =>
    unfold driftJobTemplates
    split
    · exact hostDeletesOnly_single (fun h => absurd h Bool.false_ne_true)
    · rename_i jobTemplate heqf
      split
      · rename_i ctr heqc
        split
        rename_i tr2 st2 ch2 err2 heq2
        exact hostDeletesOnly_cons (fun h => absurd h Bool.false_ne_true)
          (hostDeletesOnly_append
            (hdo_of_eq heqc (IsJobTemplateInDesiredState_hdo env jobTemplate jts))
            (hdo_of_eq heq2 (ih _)))
      · rename_i ctr heqc
        split
        · rename_i tup tr e heq
          exact hostDeletesOnly_cons (fun h => absurd h Bool.false_ne_true)
            (hostDeletesOnly_append
              (hdo_of_eq heqc (IsJobTemplateInDesiredState_hdo env jobTemplate jts))
              (hdo_of_eq heq (EnsureJobTemplate_hdo env jts)))
        · rename_i tup tr o heq
          split
          rename_i tr2 st2 ch2 err2 heq2
          exact hostDeletesOnly_cons (fun h => absurd h Bool.false_ne_true)
            (hostDeletesOnly_append
              (hdo_of_eq heqc (IsJobTemplateInDesiredState_hdo env jobTemplate jts))
              (hostDeletesOnly_append (hdo_of_eq heq (EnsureJobTemplate_hdo env jts))
                (hdo_of_eq heq2 (ih _))))
    · split
      · rename_i tup tr e heq
        exact hostDeletesOnly_cons (fun h => absurd h Bool.false_ne_true)
          (hdo_of_eq heq (EnsureJobTemplate_hdo env jts))
      · rename_i tup tr o heq
        split
        rename_i tr2 st2 ch2 err2 heq2
        exact hostDeletesOnly_cons (fun h => absurd h Bool.false_ne_true)
          (hostDeletesOnly_append (hdo_of_eq heq (EnsureJobTemplate_hdo env jts))
            (hdo_of_eq heq2 (ih _)))

/-- Helper: the drift-correction pass deletes only hosts. -/
theorem reconcileInternalChanges_hdo (env : AwxEnv) (spec : AWXInstanceSpec)
    (st : AWXStatus) : hostDeletesOnly (reconcileInternalChanges env spec st).1 := by
  unfold reconcileInternalChanges
  split
  · rename_i tr1 pst ch e heq
    exact hdo_of_eq heq (driftProjects_hdo env st.projectStatuses spec.projects)
  · rename_i tr1 pst ch1 heq
    have h1 := hdo_of_eq heq (driftProjects_hdo env st.projectStatuses spec.projects)
    split
    · rename_i tr2 ist ch e heq2
      exact hostDeletesOnly_append h1
        (hdo_of_eq heq2 (driftInventories_hdo env _ spec.inventories))
    · rename_i tr2 ist ch2 heq2
      have h2 := hdo_of_eq heq2 (driftInventories_hdo env _ spec.inventories)
      split <;>
        (rename_i tr3 jst ch3x err3x heq3;
         exact hostDeletesOnly_append (hostDeletesOnly_append h1 h2)
           (hdo_of_eq heq3 (driftJobTemplates_hdo env _ spec.jobTemplates)))

/-- Helper: the per-kind reconcile pass deletes only hosts. -/
theorem reconcileEach_hdo (env : AwxEnv) (spec : AWXInstanceSpec) (st : AWXStatus) :
    hostDeletesOnly (reconcileEach env spec st).trace := by
  have hp := reconcileKindLoop_hdo (EnsureProject env) ProjectSpec.name st.projectStatuses
    spec.projects (EnsureProject_hdo env)
  have hi := reconcileKindLoop_hdo (EnsureInventory env) InventorySpec.name
    st.inventoryStatuses spec.inventories (EnsureInventory_hdo env)
  have hj := reconcileKindLoop_hdo (EnsureJobTemplate env) JobTemplateSpec.name
    st.jobTemplateStatuses spec.jobTemplates (EnsureJobTemplate_hdo env)
  unfold reconcileEach
  split
  · rename_i tr1 calls1 pst e heq
    exact hdo_of_eq heq hp
  · rename_i tr1 calls1 pst heq
    have h1 := hdo_of_eq heq hp
    split
    · rename_i tr2 calls2 ist e heq2
      exact hostDeletesOnly_append h1 (hdo_of_eq heq2 hi)
    · rename_i tr2 calls2 ist heq2
      have h2 := hdo_of_eq heq2 hi
      split <;>
        (rename_i tr3 calls3 jst heq3;
         exact hostDeletesOnly_append (hostDeletesOnly_append h1 h2) (hdo_of_eq heq3 hj))

/-- Helper: the main pass body deletes only hosts. -/
theorem reconcileMain_hdo (env : AwxEnv) (spec : AWXInstanceSpec) (st : AWXStatus) :
    hostDeletesOnly (reconcileMain env spec st).trace := by
  unfold reconcileMain
  split
  · rename_i tr st2 ch e heq
    exact hdo_of_eq heq (reconcileInternalChanges_hdo env spec st)
  · rename_i tr st2 ch heq
    exact hostDeletesOnly_append
      (hdo_of_eq heq (reconcileInternalChanges_hdo env spec st))
      (reconcileEach_hdo env spec st2)

/-- Helper: a whole non-deleting reconcile pass deletes only hosts. -/
theorem Reconcile_hdo (env : AwxEnv) (spec : AWXInstanceSpec) (input : ReconcileInput)
    (st : AWXStatus) : hostDeletesOnly (Reconcile env spec input st).trace := by
  unfold Reconcile
  split
  · split
    · exact hostDeletesOnly_nil
    · exact reconcileMain_hdo env spec (reconcileConnStatus input st)
  · exact reconcileMain_hdo env spec (reconcileConnStatus input st)

/-- Helper: every delete issued by `DeleteJobTemplate` targets the
job_templates endpoint with the id of the object found under the given name. -/
theorem DeleteJobTemplate_delete_char (env : AwxEnv) (name : String) :
    ∀ op ∈ (DeleteJobTemplate env name).1, ∀ ep i, op = AwxOp.delete ep i →
      ep = "job_templates" ∧ ∃ obj,
        env.FindObjectByName "job_templates" name = Except.ok (some obj) ∧
        getObjectID obj = Except.ok i := by
  intro op hop ep i hde
  subst hde
  unfold DeleteJobTemplate at hop
  split at hop
  · simp at hop
  · simp at hop
  · rename_i jobTemplate heq
    split at hop
    · simp at hop
    · rename_i id heqid
      split at hop <;>
        (simp at hop; obtain ⟨rfl, rfl⟩ := hop; exact ⟨rfl, jobTemplate, heq, heqid⟩)

/-- Helper: every delete issued by `DeleteInventory` targets the inventories
endpoint with the id of the object found under the given name. -/
theorem DeleteInventory_delete_char (env : AwxEnv) (name : String) :
    ∀ op ∈ (DeleteInventory env name).1, ∀ ep i, op = AwxOp.delete ep i →
      ep = "inventories" ∧ ∃ obj,
        env.FindObjectByName "inventories" name = Except.ok (some obj) ∧
        getObjectID obj = Except.ok i := by
  intro op hop ep i hde
  subst hde
  unfold DeleteInventory at hop
  split at hop
  · simp at hop
  · simp at hop
  · rename_i inventory heq
    split at hop
    · simp at hop
    · rename_i id heqid
      split at hop <;>
        (simp at hop; obtain ⟨rfl, rfl⟩ := hop; exact ⟨rfl, inventory, heq, heqid⟩)

/-- Helper: every delete issued by `DeleteProject` targets the projects
endpoint with the id of the object found under the given name. -/
theorem DeleteProject_delete_char (env : AwxEnv) (name : String) :
    ∀ op ∈ (DeleteProject env name).1, ∀ ep i, op = AwxOp.delete ep i →
      ep = "projects" ∧ ∃ obj,
        env.FindObjectByName "projects" name = Except.ok (some obj) ∧
        getObjectID obj = Except.ok i := by
  intro op hop ep i hde
  subst hde
  unfold DeleteProject at hop
  split at hop
  · simp at hop
  · simp at hop
  · rename_i project heq
    split at hop
    · simp at hop
    · rename_i id heqid
      split at hop <;>
        (simp at hop; obtain ⟨rfl, rfl⟩ := hop; exact ⟨rfl, project, heq, heqid⟩)

/-- Helper: a delete issued by a `deleteAll` loop is accounted for by one of
the looped-over elements. -/
theorem deleteAll_delete_char {α : Type} (del : α → List AwxOp × Except String Unit)
    (P : α → String → Int → Prop)
    (hdel : ∀ x, ∀ op ∈ (del x).1, ∀ ep i, op = AwxOp.delete ep i → P x ep i)
    (xs : List α) :
    ∀ op ∈ (deleteAll del xs).1, ∀ ep i, op = AwxOp.delete ep i →
      ∃ x ∈ xs, P x ep i := by
  induction xs with
  | nil => intro op hop; simp [deleteAll] at hop
  | cons x rest ih =>
    intro op hop ep i hde
    simp only [deleteAll] at hop
    split at hop
    · rename_i tr e heq
      exact ⟨x, List.mem_cons_self x rest, hdel x op (by rw [heq]; exact hop) ep i hde⟩
    · rename_i tr u heq
      rcases List.mem_append.mp hop with hmem | hmem
      · exact ⟨x, List.mem_cons_self x rest, hdel x op (by rw [heq]; exact hmem) ep i hde⟩
      · obtain ⟨y, hy, hP⟩ := ih op hmem ep i hde
        exact ⟨y, List.mem_cons_of_mem x hy, hP⟩

/-- Helper: every delete issued by finalization is a declared job template,
inventory or project delete. -/
theorem finalize_delete_char (env : AwxEnv) (spec : AWXInstanceSpec) :
    ∀ op ∈ (finalizeAWXInstance env spec).1, ∀ ep i, op = AwxOp.delete ep i →
      (ep = "job_templates" ∧
         declaredDelete env "job_templates" (spec.jobTemplates.map JobTemplateSpec.name) i) ∨
      (ep = "inventories" ∧
         declaredDelete env "inventories" (spec.inventories.map InventorySpec.name) i) ∨
      (ep = "projects" ∧
         declaredDelete env "projects" (spec.projects.map ProjectSpec.name) i) := by
  have hjt := deleteAll_delete_char (fun j => DeleteJobTemplate env (JobTemplateSpec.name j))
    (fun j ep i => ep = "job_templates" ∧ ∃ obj,
      env.FindObjectByName "job_templates" (JobTemplateSpec.name j) = Except.ok (some obj) ∧
      getObjectID obj = Except.ok i)
    (fun j => DeleteJobTemplate_delete_char env (JobTemplateSpec.name j)) spec.jobTemplates
  have hinv := deleteAll_delete_char (fun iv => DeleteInventory env (InventorySpec.name iv))
    (fun iv ep i => ep = "inventories" ∧ ∃ obj,
      env.FindObjectByName "inventories" (InventorySpec.name iv) = Except.ok (some obj) ∧
      getObjectID obj = Except.ok i)
    (fun iv => DeleteInventory_delete_char env (InventorySpec.name iv)) spec.inventories
  have hproj := deleteAll_delete_char (fun p => DeleteProject env (ProjectSpec.name p))
    (fun p ep i => ep = "projects" ∧ ∃ obj,
      env.FindObjectByName "projects" (ProjectSpec.name p) = Except.ok (some obj) ∧
      getObjectID obj = Except.ok i)
    (fun p => DeleteProject_delete_char env (ProjectSpec.name p)) spec.projects
  intro op hop ep i hde
  unfold finalizeAWXInstance at hop
  split at hop
  · rename_i tr1 e heq1
    obtain ⟨j, hj, hep, obj, hfind, hid⟩ := hjt op (by rw [heq1]; exact hop) ep i hde
    exact Or.inl ⟨hep, JobTemplateSpec.name j, List.mem_map_of_mem _ hj, obj, hfind, hid⟩
  · rename_i tr1 u1 heq1
    split at hop
    · rename_i tr2 e heq2
      rcases List.mem_append.mp hop with hmem | hmem
      · obtain ⟨j, hj, hep, obj, hfind, hid⟩ := hjt op (by rw [heq1]; exact hmem) ep i hde
        exact Or.inl ⟨hep, JobTemplateSpec.name j, List.mem_map_of_mem _ hj, obj, hfind, hid⟩
      · obtain ⟨iv, hiv, hep, obj, hfind, hid⟩ := hinv op (by rw [heq2]; exact hmem) ep i hde
        exact Or.inr (Or.inl ⟨hep, InventorySpec.name iv, List.mem_map_of_mem _ hiv, obj,
          hfind, hid⟩)
    · rename_i tr2 u2 heq2
      rcases List.mem_append.mp hop with hmem | hmem
      · rcases List.mem_append.mp hmem with hmem2 | hmem2
        · obtain ⟨j, hj, hep, obj, hfind, hid⟩ := hjt op (by rw [heq1]; exact hmem2) ep i hde
          exact Or.inl ⟨hep, JobTemplateSpec.name j, List.mem_map_of_mem _ hj, obj, hfind, hid⟩
        · obtain ⟨iv, hiv, hep, obj, hfind, hid⟩ := hinv op (by rw [heq2]; exact hmem2) ep i hde
          exact Or.inr (Or.inl ⟨hep, InventorySpec.name iv, List.mem_map_of_mem _ hiv, obj,
            hfind, hid⟩)
      · obtain ⟨p, hp, hep, obj, hfind, hid⟩ := hproj op hmem ep i hde
        exact Or.inr (Or.inr ⟨hep, ProjectSpec.name p, List.mem_map_of_mem _ hp, obj,
          hfind, hid⟩)

/-- C9: no undeclared remote object is ever deleted.  Every delete a
non-deleting reconcile pass issues addresses the hosts endpoint (host pruning
under a declared inventory), so remote projects, inventories and job templates
are never deleted by it; and every delete issued while finalizing a deleted
declaration addresses the id of an object found under a declared job
template, inventory or project name, in that endpoint. -/
theorem C9_no_undeclared_delete (env : AwxEnv) (spec : AWXInstanceSpec)
    (input : ReconcileInput) (st : AWXStatus) (hasFinalizer : Bool) :
    (∀ op ∈ (Reconcile env spec input st).trace,
       isDeleteOp op = true → opEndpoint op = "hosts") ∧
    (∀ op ∈ (ReconcileDeleting env spec hasFinalizer).1, ∀ ep i,
       op = AwxOp.delete ep i →
         (ep = "job_templates" ∧
            declaredDelete env "job_templates" (spec.jobTemplates.map JobTemplateSpec.name) i) ∨
         (ep = "inventories" ∧
            declaredDelete env "inventories" (spec.inventories.map InventorySpec.name) i) ∨
         (ep = "projects" ∧
            declaredDelete env "projects" (spec.projects.map ProjectSpec.name) i)) := by
  refine ⟨Reconcile_hdo env spec input st, ?_⟩
  intro op hop ep i hde
  unfold ReconcileDeleting at hop
  split at hop
  · split at hop <;>
      (rename_i tr heq;
       exact finalize_delete_char env spec op (by rw [heq]; exact hop) ep i hde)
  · simp at hop

/-- C9 witness: against a remote API holding a project and an inventory under
every name, finalizing the spec that declares project "P1" and inventory "I1"
issues the delete of inventory id 2, and that delete is accounted for by the
declared inventory list. -/
theorem C9_no_undeclared_delete_witness :
    AwxOp.delete "inventories" 2 ∈ (ReconcileDeleting happyEnv c9Spec true).1 ∧
    (("inventories" = "job_templates" ∧
        declaredDelete happyEnv "job_templates"
          (c9Spec.jobTemplates.map JobTemplateSpec.name) 2) ∨
     ("inventories" = "inventories" ∧
        declaredDelete happyEnv "inventories"
          (c9Spec.inventories.map InventorySpec.name) 2) ∨
     ("inventories" = "projects" ∧
        declaredDelete happyEnv "projects"
          (c9Spec.projects.map ProjectSpec.name) 2)) := by
  have hmem : AwxOp.delete "inventories" 2 ∈ (ReconcileDeleting happyEnv c9Spec true).1 := by
    show AwxOp.delete "inventories" 2 ∈
      [AwxOp.find "inventories" "I1", AwxOp.delete "inventories" 2,
       AwxOp.find "projects" "P1", AwxOp.delete "projects" 1]
    exact List.mem_cons_of_mem _ (List.mem_cons_self _ _)
  exact ⟨hmem, (C9_no_undeclared_delete happyEnv c9Spec quietInput emptyStatus true).2
    _ hmem "inventories" 2 rfl⟩

/-- Helper: looking a key up right after setting it yields the new value. -/
theorem lookupKey_setKey_same {α : Type} (m : List (String × α)) (k : String) (v : α) :
    lookupKey (setKey m k v) k = some v := by
  induction m with
  | nil => simp [setKey, lookupKey]
  | cons p rest ih =>
    obtain ⟨k2, v2⟩ := p
    by_cases hk : k2 = k
    · subst hk
      simp [setKey, lookupKey]
    · simp [setKey, if_neg hk, lookupKey, ih]

/-- Helper: setting a key leaves the lookup of every other key unchanged. -/
theorem lookupKey_setKey_ne {α : Type} (m : List (String × α)) (k k2 : String) (v : α)
    (hne : k2 ≠ k) : lookupKey (setKey m k v) k2 = lookupKey m k2 := by
  induction m with
  | nil => simp [setKey, lookupKey, Ne.symm hne]
  | cons p rest ih =>
    obtain ⟨k3, v3⟩ := p
    by_cases hk : k3 = k
    · subst hk
      simp [setKey, lookupKey, Ne.symm hne]
    · by_cases hk2 : k3 = k2
      · subst hk2
        simp [setKey, hk, lookupKey]
      · simp [setKey, if_neg hk, lookupKey, hk2, ih]

/-- Helper: a binding of the list with a key set is the new binding or an old
one. -/
theorem mem_setKey {α : Type} (m : List (String × α)) (k : String) (v : α) (p : String × α)
    (hp : p ∈ setKey m k v) : p = (k, v) ∨ p ∈ m := by
  induction m with
  | nil => simpa [setKey] using hp
  | cons q rest ih =>
    obtain ⟨k2, v2⟩ := q
    by_cases hk : k2 = k
    · subst hk
      rw [setKey, if_pos rfl] at hp
      rcases List.mem_cons.mp hp with rfl | h
      · exact Or.inl rfl
      · exact Or.inr (List.mem_cons_of_mem _ h)
    · rw [setKey, if_neg hk] at hp
      rcases List.mem_cons.mp hp with rfl | h
      · exact Or.inr (List.mem_cons_self _ _)
      · rcases ih h with h1 | h1
        · exact Or.inl h1
        · exact Or.inr (List.mem_cons_of_mem _ h1)

/-- Helper: a successful lookup is a binding of the list. -/
theorem lookupKey_mem {α : Type} (m : List (String × α)) (k : String) (v : α)
    (h : lookupKey m k = some v) : (k, v) ∈ m := by
  induction m with
  | nil => simp [lookupKey] at h
  | cons p rest ih =>
    obtain ⟨k2, v2⟩ := p
    by_cases hk : k2 = k
    · subst hk
      rw [lookupKey, if_pos rfl] at h
      injection h with h2
      subst h2
      exact List.mem_cons_self _ _
    · rw [lookupKey, if_neg hk] at h
      exact List.mem_cons_of_mem _ (ih h)

/-- Helper: applying a trace one operation at a time. -/
theorem applyHostOps_cons (op : AwxOp) (ops : List AwxOp) (st : List Obj × Int) :
    applyHostOps (op :: ops) st = applyHostOps ops (applyHostOp st op) := rfl

/-- Helper: applying a concatenated trace is sequential application. -/
theorem applyHostOps_append (a b : List AwxOp) (st : List Obj × Int) :
    applyHostOps (a ++ b) st = applyHostOps b (applyHostOps a st) :=
  List.foldl_append _ _ _ _

/-- Helper: merging the host data fields into any object pins exactly the four
written fields and keeps the object's id. -/
theorem mergeObj_hostData_fields (h : Obj) (inventoryID : Int) (d : HostSpec) :
    hostFields (mergeObj h (hostDataFields inventoryID d)) inventoryID d ∧
    getObjectID (mergeObj h (hostDataFields inventoryID d)) = getObjectID h := by
  have hshape : mergeObj h (hostDataFields inventoryID d) =
      setKey (setKey (setKey (setKey h "name" (JVal.str d.name))
        "description" (JVal.str d.description)) "inventory" (JVal.num inventoryID))
        "variables" (JVal.str d.vars) := rfl
  constructor
  · intro kv hkv
    rw [hshape]
    simp only [hostDataFields, List.mem_cons, List.not_mem_nil, or_false] at hkv
    rcases hkv with rfl | rfl | rfl | rfl
    · show lookupKey _ "name" = some (JVal.str d.name)
      rw [lookupKey_setKey_ne _ _ _ _ (by decide), lookupKey_setKey_ne _ _ _ _ (by decide),
        lookupKey_setKey_ne _ _ _ _ (by decide), lookupKey_setKey_same]
    · show lookupKey _ "description" = some (JVal.str d.description)
      rw [lookupKey_setKey_ne _ _ _ _ (by decide), lookupKey_setKey_ne _ _ _ _ (by decide),
        lookupKey_setKey_same]
    · show lookupKey _ "inventory" = some (JVal.num inventoryID)
      rw [lookupKey_setKey_ne _ _ _ _ (by decide), lookupKey_setKey_same]
    · show lookupKey _ "variables" = some (JVal.str d.vars)
      rw [lookupKey_setKey_same]
  · rw [hshape]
    unfold getObjectID
    rw [lookupKey_setKey_ne _ _ _ _ (by decide), lookupKey_setKey_ne _ _ _ _ (by decide),
      lookupKey_setKey_ne _ _ _ _ (by decide), lookupKey_setKey_ne _ _ _ _ (by decide)]

/-- Helper: a freshly created host carries exactly the written fields and the
fresh id. -/
theorem createdHost_fields (k : Int) (inventoryID : Int) (d : HostSpec) :
    hostFields (("id", JVal.num k) :: hostDataFields inventoryID d) inventoryID d ∧
    getObjectID (("id", JVal.num k) :: hostDataFields inventoryID d) = Except.ok k := by
  constructor
  · intro kv hkv
    simp only [hostDataFields, List.mem_cons, List.not_mem_nil, or_false] at hkv
    rcases hkv with rfl | rfl | rfl | rfl <;> rfl
  · rfl

/-- Helper: reading the individual declared values out of `hostFields`. -/
theorem hostFields_getStr (h : Obj) (inventoryID : Int) (d : HostSpec)
    (hf : hostFields h inventoryID d) :
    getStr h "name" = some d.name ∧ getStr h "description" = some d.description ∧
    getStr h "variables" = some d.vars ∧
    lookupKey h "inventory" = some (JVal.num inventoryID) := by
  have h1 := hf ("name", JVal.str d.name) (by simp [hostDataFields])
  have h2 := hf ("description", JVal.str d.description) (by simp [hostDataFields])
  have h3 := hf ("variables", JVal.str d.vars) (by simp [hostDataFields])
  have h4 := hf ("inventory", JVal.num inventoryID) (by simp [hostDataFields])
  exact ⟨by simp [getStr, h1], by simp [getStr, h2], by simp [getStr, h3], h4⟩

/-- Helper: updating with the host data fields never changes a host's id. -/
theorem updateHostFn_id (i inventoryID : Int) (d : HostSpec) (h : Obj) :
    getObjectID (updateHostFn i (hostDataFields inventoryID d) h) = getObjectID h := by
  cases hg : getObjectID h with
  | ok j =>
    simp only [updateHostFn, hg]
    split_ifs with hj
    · rw [(mergeObj_hostData_fields h inventoryID d).2, hg]
    · exact hg
  | error e => simp only [updateHostFn, hg]

/-- Helper: an update leaves every host with a different (or invalid) id
unchanged. -/
theorem updateHostFn_untargeted (i : Int) (data : Obj) (h : Obj)
    (hne : getObjectID h ≠ Except.ok i) : updateHostFn i data h = h := by
  cases hg : getObjectID h with
  | ok j =>
    simp only [updateHostFn, hg]
    rw [if_neg (fun hji => hne (by rw [hg, hji]))]
  | error e => simp only [updateHostFn, hg]

/-- Helper: an update PATCHes the host carrying the targeted id. -/
theorem updateHostFn_targeted (i : Int) (data : Obj) (h : Obj)
    (hid : getObjectID h = Except.ok i) : updateHostFn i data h = mergeObj h data := by
  simp [updateHostFn, hid]

/-- Helper: a host whose id differs from the deleted one survives the
delete. -/
theorem deleteHostPred_of_ne (i : Int) (h : Obj)
    (hne : getObjectID h ≠ Except.ok i) : deleteHostPred i h = true := by
  cases hg : getObjectID h with
  | ok j =>
    simp only [deleteHostPred, hg]
    exact bne_iff_ne.mpr (fun hji => hne (by rw [hg, hji]))
  | error e => simp only [deleteHostPred, hg]

/-- Helper: no host surviving a delete carries the deleted id. -/
theorem deleteHostPred_mem_filter (i : Int) (l : List Obj) (h : Obj)
    (hh : h ∈ List.filter (deleteHostPred i) l) : getObjectID h ≠ Except.ok i := by
  have hp := (List.mem_filter.mp hh).2
  intro habs
  rw [deleteHostPred, habs] at hp
  simp at hp

/-- Helper: looking up a name held by no host of the list leaves the host-map
fold at the accumulator value. -/
theorem hostMapFold_lookup_notin (hs : List Obj) :
    ∀ (acc : List (String × Obj)) (n : String),
    (∀ h2 ∈ hs, getStr h2 "name" ≠ some n) →
    lookupKey (hs.foldl (fun m h =>
      match getStr h "name" with
      | some n => setKey m n h
      | none => m) acc) n = lookupKey acc n := by
  induction hs with
  | nil => intro acc n _; rfl
  | cons h rest ih =>
    intro acc n hn
    rw [List.foldl_cons, ih _ n (fun h2 hh2 => hn h2 (List.mem_cons_of_mem h hh2))]
    show lookupKey (match getStr h "name" with
      | some n2 => setKey acc n2 h
      | none => acc) n = lookupKey acc n
    cases hg : getStr h "name" with
    | none => rfl
    | some n2 =>
      exact lookupKey_setKey_ne acc n2 n h
        (fun he => hn h (List.mem_cons_self h rest) (by rw [hg, he]))

/-- Helper: the host-map fold binds a host of the list under its own name,
provided no other host of the list carries that name. -/
theorem hostMapFold_lookup_mem (hs : List Obj) :
    ∀ (acc : List (String × Obj)) (h : Obj) (n : String),
    h ∈ hs → getStr h "name" = some n →
    (∀ h2 ∈ hs, getStr h2 "name" = some n → h2 = h) →
    lookupKey (hs.foldl (fun m h =>
      match getStr h "name" with
      | some n => setKey m n h
      | none => m) acc) n = some h := by
  induction hs with
  | nil => intro acc h n hmem; exact absurd hmem (List.not_mem_nil h)
  | cons h0 rest ih =>
    intro acc h n hmem hname huniq
    rw [List.foldl_cons]
    rcases List.mem_cons.mp hmem with rfl | hmem2
    · by_cases hr : ∃ h2 ∈ rest, getStr h2 "name" = some n
      · obtain ⟨h2, hh2, hn2⟩ := hr
        obtain rfl := huniq h2 (List.mem_cons_of_mem h hh2) hn2
        exact ih _ h2 n hh2 hn2
          (fun h3 hh3 hn3 => huniq h3 (List.mem_cons_of_mem h2 hh3) hn3)
      · push_neg at hr
        rw [hostMapFold_lookup_notin rest _ n hr]
        show lookupKey (match getStr h "name" with
          | some n2 => setKey acc n2 h
          | none => acc) n = some h
        rw [hname]
        exact lookupKey_setKey_same acc n h
    · exact ih _ h n hmem2 hname
        (fun h3 hh3 hn3 => huniq h3 (List.mem_cons_of_mem h0 hh3) hn3)

/-- Helper: every binding of the host-map fold comes from a host of the list
named by the binding key, or from the accumulator. -/
theorem hostMapFold_mem (hs : List Obj) :
    ∀ (acc : List (String × Obj)) (p : String × Obj),
    p ∈ hs.foldl (fun m h =>
      match getStr h "name" with
      | some n => setKey m n h
      | none => m) acc →
    (p.2 ∈ hs ∧ getStr p.2 "name" = some p.1) ∨ p ∈ acc := by
  induction hs with
  | nil => intro acc p hp; exact Or.inr hp
  | cons h0 rest ih =>
    intro acc p hp
    rw [List.foldl_cons] at hp
    rcases ih _ p hp with ⟨hmem, hn⟩ | hacc
    · exact Or.inl ⟨List.mem_cons_of_mem h0 hmem, hn⟩
    · cases hg : getStr h0 "name" with
      | none =>
        simp only [hg] at hacc
        exact Or.inr hacc
      | some n0 =>
        simp only [hg] at hacc
        rcases mem_setKey acc n0 h0 p hacc with rfl | hacc2
        · exact Or.inl ⟨List.mem_cons_self h0 rest, hg⟩
        · exact Or.inr hacc2

/-- Helper: a host found in the built host map is an existing host carrying
the looked-up name. -/
theorem buildHostMap_lookup (hs : List Obj) (n : String) (h : Obj)
    (hl : lookupKey (buildHostMap hs) n = some h) :
    h ∈ hs ∧ getStr h "name" = some n := by
  have hm := lookupKey_mem _ _ _ hl
  rcases hostMapFold_mem hs [] (n, h) hm with h1 | h1
  · exact h1
  · exact absurd h1 (List.not_mem_nil _)

/-- Helper: every binding of the built host map is an existing host under its
own name. -/
theorem buildHostMap_mem (hs : List Obj) (p : String × Obj) (hp : p ∈ buildHostMap hs) :
    p.2 ∈ hs ∧ getStr p.2 "name" = some p.1 := by
  rcases hostMapFold_mem hs [] p hp with h1 | h1
  · exact h1
  · exact absurd h1 (List.not_mem_nil _)

/-- Helper: with no duplicate host name, the built host map binds every named
host to itself. -/
theorem buildHostMap_lookup_self (hs : List Obj) (h : Obj) (n : String)
    (hmem : h ∈ hs) (hname : getStr h "name" = some n)
    (huniq : ∀ h2 ∈ hs, getStr h2 "name" = some n → h2 = h) :
    lookupKey (buildHostMap hs) n = some h :=
  hostMapFold_lookup_mem hs [] h n hmem hname huniq

/-- Helper: when mapping into an option without duplicates among the hits, two
elements hitting the same value are equal. -/
theorem nodup_filterMap_inj {α β : Type} (f : α → Option β) :
    ∀ l : List α, (l.filterMap f).Nodup →
    ∀ a1 ∈ l, ∀ a2 ∈ l, ∀ b, f a1 = some b → f a2 = some b → a1 = a2 := by
  intro l
  induction l with
  | nil => intro _ a1 h1; exact absurd h1 (List.not_mem_nil a1)
  | cons a rest ih =>
    intro hnd a1 h1 a2 h2 b hb1 hb2
    cases hf : f a with
    | none =>
      simp only [List.filterMap_cons, hf] at hnd
      rcases List.mem_cons.mp h1 with rfl | h1r
      · rw [hf] at hb1; exact absurd hb1 (by simp)
      · rcases List.mem_cons.mp h2 with rfl | h2r
        · rw [hf] at hb2; exact absurd hb2 (by simp)
        · exact ih hnd a1 h1r a2 h2r b hb1 hb2
    | some b0 =>
      simp only [List.filterMap_cons, hf] at hnd
      obtain ⟨hnotin, hnd2⟩ := List.nodup_cons.mp hnd
      rcases List.mem_cons.mp h1 with rfl | h1r
      · rcases List.mem_cons.mp h2 with rfl | h2r
        · rfl
        · exfalso
          have hb0 : b0 = b := by rw [hf] at hb1; exact Option.some.inj hb1
          have hmem : b ∈ List.filterMap f rest := List.mem_filterMap.mpr ⟨a2, h2r, hb2⟩
          rw [← hb0] at hmem
          exact hnotin hmem
      · rcases List.mem_cons.mp h2 with rfl | h2r
        · exfalso
          have hb0 : b0 = b := by rw [hf] at hb2; exact Option.some.inj hb2
          have hmem : b ∈ List.filterMap f rest := List.mem_filterMap.mpr ⟨a1, h1r, hb1⟩
          rw [← hb0] at hmem
          exact hnotin hmem
        · exact ih hnd2 a1 h1r a2 h2r b hb1 hb2

/-- Helper: with no duplicate host name, hosts are determined by their name. -/
theorem hostNames_inj (hs : List Obj) (hnd : (hostNames hs).Nodup) :
    ∀ h1 ∈ hs, ∀ h2 ∈ hs, ∀ n,
    getStr h1 "name" = some n → getStr h2 "name" = some n → h1 = h2 :=
  fun h1 hh1 h2 hh2 n hn1 hn2 =>
    nodup_filterMap_inj (fun h => getStr h "name") hs hnd h1 hh1 h2 hh2 n hn1 hn2

/-- Helper: with no duplicate host id, hosts are determined by their id. -/
theorem hostIds_inj (hs : List Obj) (hnd : (hostIds hs).Nodup) :
    ∀ h1 ∈ hs, ∀ h2 ∈ hs, ∀ i,
    getObjectID h1 = Except.ok i → getObjectID h2 = Except.ok i → h1 = h2 := by
  intro h1 hh1 h2 hh2 i hi1 hi2
  refine nodup_filterMap_inj (fun h =>
    match getObjectID h with
    | Except.ok i => some i
    | Except.error _ => none) hs hnd h1 hh1 h2 hh2 i ?_ ?_
  · simp [hi1]
  · simp [hi2]

/-- Helper: what the create-or-update loop of `reconcileHosts` does to the
remote host set.  Relative to a host map whose bindings have valid ids below
the fresh counter and are represented in the current host set, with ids
injective across binding names: the counter never decreases, hosts whose ids
no remaining declared host targets survive verbatim, every final host is an
original host or carries a declared host's written fields, and every declared
host ends up present with exactly the written fields — keeping the matched
binding's id, or getting a fresh id when no binding matches its name. -/
theorem upsertHosts_apply (env : AwxEnv) (invId : Int) (m : List (String × Obj)) :
    ∀ (ds : List HostSpec) (st : List Obj × Int) (tr : List AwxOp) (u : Unit),
    upsertHosts env invId m ds = (tr, Except.ok u) →
    (List.map HostSpec.name ds).Nodup →
    (∀ n h, lookupKey m n = some h → ∃ i, getObjectID h = Except.ok i ∧ i < st.2 ∧
       ∃ h2 ∈ st.1, getObjectID h2 = Except.ok i) →
    (∀ n1 n2 h1 h2 i, lookupKey m n1 = some h1 → lookupKey m n2 = some h2 →
       getObjectID h1 = Except.ok i → getObjectID h2 = Except.ok i → n1 = n2) →
    st.2 ≤ (applyHostOps tr st).2 ∧
    (∀ h ∈ st.1,
       (∀ d ∈ ds, ∀ hm, lookupKey m d.name = some hm →
          ∀ i, getObjectID hm = Except.ok i → getObjectID h ≠ Except.ok i) →
       h ∈ (applyHostOps tr st).1) ∧
    (∀ h ∈ (applyHostOps tr st).1, h ∈ st.1 ∨ ∃ d ∈ ds, hostFields h invId d) ∧
    (∀ d ∈ ds, ∃ h ∈ (applyHostOps tr st).1, hostFields h invId d ∧
       ((∃ hm, lookupKey m d.name = some hm ∧ getObjectID h = getObjectID hm) ∨
        (lookupKey m d.name = none ∧
          ∃ i, getObjectID h = Except.ok i ∧ st.2 ≤ i))) := by
  intro ds
  induction ds with
  | nil =>
    intro st tr u hup _ _ _
    simp only [upsertHosts, Prod.mk.injEq] at hup
    obtain ⟨htr, -⟩ := hup
    subst htr
    exact ⟨le_refl _, fun h hh _ => hh, fun h hh => Or.inl hh,
      fun d hd => absurd hd (List.not_mem_nil d)⟩
  | cons d rest ih =>
    intro st tr u hup hnd Hmap Hinj
    rw [List.map_cons] at hnd
    obtain ⟨hdnotin, hndr⟩ := List.nodup_cons.mp hnd
    obtain ⟨tr2, r2, hrec⟩ : ∃ a b, upsertHosts env invId m rest = (a, b) := ⟨_, _, rfl⟩
    cases hlook : lookupKey m d.name with
    | some existingHost =>
      cases hid0 : getObjectID existingHost with
      | error e => simp [upsertHosts, hlook, hid0] at hup
      | ok hostID =>
        cases hupd : env.UpdateObject "hosts" hostID (hostDataFields invId d) with
        | error e => simp [upsertHosts, hlook, hid0, hupd] at hup
        | ok upd =>
          simp only [upsertHosts, hlook, hid0, hupd, hrec, Prod.mk.injEq] at hup
          obtain ⟨htr, hr2⟩ := hup
          subst htr
          subst hr2
          have happ : applyHostOp st (AwxOp.update "hosts" hostID (hostDataFields invId d)) =
              (st.1.map (updateHostFn hostID (hostDataFields invId d)), st.2) := by
            simp [applyHostOp]
          rw [applyHostOps_cons, happ]
          have Hmap2 : ∀ n h, lookupKey m n = some h → ∃ i, getObjectID h = Except.ok i ∧
              i < (st.1.map (updateHostFn hostID (hostDataFields invId d)), st.2).2 ∧
              ∃ h2 ∈ (st.1.map (updateHostFn hostID (hostDataFields invId d)), st.2).1,
                getObjectID h2 = Except.ok i := by
            intro n h hl
            obtain ⟨i, hi, hlt, h2, hh2, hid2⟩ := Hmap n h hl
            exact ⟨i, hi, hlt, updateHostFn hostID (hostDataFields invId d) h2,
              List.mem_map_of_mem _ hh2, by rw [updateHostFn_id, hid2]⟩
          obtain ⟨ihLe, ihPres, ihOrig, ihDecl⟩ :=
            ih (st.1.map (updateHostFn hostID (hostDataFields invId d)), st.2) tr2 u
              hrec hndr Hmap2 Hinj
          refine ⟨ihLe, ?_, ?_, ?_⟩
          · intro h hh hno
            have hne0 : getObjectID h ≠ Except.ok hostID :=
              hno d (List.mem_cons_self d rest) existingHost hlook hostID hid0
            have hfix : updateHostFn hostID (hostDataFields invId d) h = h :=
              updateHostFn_untargeted _ _ _ hne0
            have hh2 : h ∈ st.1.map (updateHostFn hostID (hostDataFields invId d)) := by
              rw [← hfix]
              exact List.mem_map_of_mem _ hh
            exact ihPres h hh2
              (fun d2 hd2 hm hlm i hi => hno d2 (List.mem_cons_of_mem d hd2) hm hlm i hi)
          · intro h hh
            rcases ihOrig h hh with hh2 | ⟨d2, hd2, hf⟩
            · rcases List.mem_map.mp hh2 with ⟨h0, hh0, heq0⟩
              by_cases ht : getObjectID h0 = Except.ok hostID
              · right
                refine ⟨d, List.mem_cons_self d rest, ?_⟩
                rw [← heq0, updateHostFn_targeted _ _ _ ht]
                exact (mergeObj_hostData_fields h0 invId d).1
              · left
                rw [← heq0, updateHostFn_untargeted _ _ _ ht]
                exact hh0
            · exact Or.inr ⟨d2, List.mem_cons_of_mem d hd2, hf⟩
          · intro d2 hd2
            rcases List.mem_cons.mp hd2 with heq | hd2r
            · rw [heq]
              obtain ⟨i, hi, hlt, h2, hh2, hid2⟩ := Hmap d.name existingHost hlook
              have hieq : i = hostID := (Except.ok.inj (hid0.symm.trans hi)).symm
              rw [hieq] at hid2
              have hmerged : updateHostFn hostID (hostDataFields invId d) h2 =
                  mergeObj h2 (hostDataFields invId d) := updateHostFn_targeted _ _ _ hid2
              have hmem2 : mergeObj h2 (hostDataFields invId d) ∈
                  st.1.map (updateHostFn hostID (hostDataFields invId d)) := by
                rw [← hmerged]
                exact List.mem_map_of_mem _ hh2
              have hidM : getObjectID (mergeObj h2 (hostDataFields invId d)) =
                  Except.ok hostID := by
                rw [(mergeObj_hostData_fields h2 invId d).2, hid2]
              refine ⟨mergeObj h2 (hostDataFields invId d), ihPres _ hmem2 ?_,
                (mergeObj_hostData_fields h2 invId d).1, Or.inl ⟨existingHost, hlook, ?_⟩⟩
              · intro d3 hd3 hm3 hlm3 i3 hi3 habs
                have hi3eq : i3 = hostID := Except.ok.inj (habs.symm.trans hidM)
                rw [hi3eq] at hi3
                have hnameq : d.name = d3.name :=
                  Hinj d.name d3.name existingHost hm3 hostID hlook hlm3 hid0 hi3
                exact hdnotin (hnameq ▸ List.mem_map_of_mem HostSpec.name hd3)
              · rw [hidM, hid0]
            · obtain ⟨h, hh, hf, hdis⟩ := ihDecl d2 hd2r
              exact ⟨h, hh, hf, hdis⟩
    | none =>
      cases hcre : env.CreateObject "hosts" (hostDataFields invId d) with
      | error e => simp [upsertHosts, hlook, hcre] at hup
      | ok created =>
        simp only [upsertHosts, hlook, hcre, hrec, Prod.mk.injEq] at hup
        obtain ⟨htr, hr2⟩ := hup
        subst htr
        subst hr2
        have happ : applyHostOp st (AwxOp.create "hosts" (hostDataFields invId d)) =
            (st.1 ++ [("id", JVal.num st.2) :: hostDataFields invId d], st.2 + 1) := by
          simp [applyHostOp]
        rw [applyHostOps_cons, happ]
        have Hmap2 : ∀ n h, lookupKey m n = some h → ∃ i, getObjectID h = Except.ok i ∧
            i < (st.1 ++ [("id", JVal.num st.2) :: hostDataFields invId d], st.2 + 1).2 ∧
            ∃ h2 ∈ (st.1 ++ [("id", JVal.num st.2) :: hostDataFields invId d],
              st.2 + 1).1, getObjectID h2 = Except.ok i := by
          intro n h hl
          obtain ⟨i, hi, hlt, h2, hh2, hid2⟩ := Hmap n h hl
          exact ⟨i, hi, lt_trans hlt (lt_add_one st.2), h2, List.mem_append_left _ hh2, hid2⟩
        obtain ⟨ihLe, ihPres, ihOrig, ihDecl⟩ :=
          ih (st.1 ++ [("id", JVal.num st.2) :: hostDataFields invId d], st.2 + 1) tr2 u
            hrec hndr Hmap2 Hinj
        refine ⟨le_trans (le_of_lt (lt_add_one st.2)) ihLe, ?_, ?_, ?_⟩
        · intro h hh hno
          exact ihPres h (List.mem_append_left _ hh)
            (fun d3 hd3 hm hlm i hi => hno d3 (List.mem_cons_of_mem d hd3) hm hlm i hi)
        · intro h hh
          rcases ihOrig h hh with hh2 | ⟨d3, hd3, hf⟩
          · rcases List.mem_append.mp hh2 with hh3 | hh3
            · exact Or.inl hh3
            · right
              refine ⟨d, List.mem_cons_self d rest, ?_⟩
              rw [List.mem_singleton.mp hh3]
              exact (createdHost_fields st.2 invId d).1
          · exact Or.inr ⟨d3, List.mem_cons_of_mem d hd3, hf⟩
        · intro d2 hd2
          rcases List.mem_cons.mp hd2 with heq | hd2r
          · rw [heq]
            have hidC : getObjectID (("id", JVal.num st.2) :: hostDataFields invId d) =
                Except.ok st.2 := (createdHost_fields st.2 invId d).2
            have hmemC : (("id", JVal.num st.2) :: hostDataFields invId d) ∈
                st.1 ++ [("id", JVal.num st.2) :: hostDataFields invId d] :=
              List.mem_append_right _ (List.mem_singleton.mpr rfl)
            refine ⟨("id", JVal.num st.2) :: hostDataFields invId d,
              ihPres _ hmemC ?_, (createdHost_fields st.2 invId d).1,
              Or.inr ⟨hlook, st.2, hidC, le_refl _⟩⟩
            intro d3 hd3 hm hlm i hi habs
            obtain ⟨i2, hi2, hlt2, -⟩ := Hmap d3.name hm hlm
            have h1 : i2 = i := Except.ok.inj (hi2.symm.trans hi)
            have h2 : st.2 = i := Except.ok.inj (hidC.symm.trans habs)
            omega
          · obtain ⟨h, hh, hf, hdis⟩ := ihDecl d2 hd2r
            rcases hdis with hmatch | ⟨hnone, i0, hi0, hge⟩
            · exact ⟨h, hh, hf, Or.inl hmatch⟩
            · exact ⟨h, hh, hf,
                Or.inr ⟨hnone, i0, hi0, le_trans (le_of_lt (lt_add_one st.2)) hge⟩⟩

/-- Helper: what the pruning loop of `reconcileHosts` does to the remote host
set: hosts whose ids no undeclared binding carries survive verbatim, no host
is added, and no surviving host carries the id of an undeclared binding. -/
theorem deleteExtraHosts_apply (env : AwxEnv) (names : List String) :
    ∀ (entries : List (String × Obj)) (st : List Obj × Int) (tr : List AwxOp) (u : Unit),
    deleteExtraHosts env names entries = (tr, Except.ok u) →
    (∀ h ∈ st.1,
       (∀ p ∈ entries, p.1 ∉ names → ∀ i, getObjectID p.2 = Except.ok i →
          getObjectID h ≠ Except.ok i) →
       h ∈ (applyHostOps tr st).1) ∧
    (∀ h ∈ (applyHostOps tr st).1, h ∈ st.1) ∧
    (∀ p ∈ entries, p.1 ∉ names → ∀ i, getObjectID p.2 = Except.ok i →
       ∀ h ∈ (applyHostOps tr st).1, getObjectID h ≠ Except.ok i) := by
  intro entries
  induction entries with
  | nil =>
    intro st tr u hdel
    simp only [deleteExtraHosts, Prod.mk.injEq] at hdel
    obtain ⟨htr, -⟩ := hdel
    subst htr
    exact ⟨fun h hh _ => hh, fun h hh => hh,
      fun p hp => absurd hp (List.not_mem_nil p)⟩
  | cons q rest ih =>
    obtain ⟨n, hobj⟩ := q
    intro st tr u hdel
    by_cases hcb : names.contains n = true
    · simp only [deleteExtraHosts, if_pos hcb] at hdel
      obtain ⟨ihPres, ihSub, ihComp⟩ := ih st tr u hdel
      refine ⟨?_, ihSub, ?_⟩
      · intro h hh hno
        exact ihPres h hh
          (fun p hp hp1 i hpi => hno p (List.mem_cons_of_mem _ hp) hp1 i hpi)
      · intro p hp hp1 i hpi
        rcases List.mem_cons.mp hp with heq | hpr
        · exfalso
          have hnm : n ∈ names := by simpa using hcb
          rw [heq] at hp1
          exact hp1 hnm
        · exact ihComp p hpr hp1 i hpi
    · have hnmem : n ∉ names := fun hmem => hcb (by simpa using hmem)
      cases hg : getObjectID hobj with
      | error e => simp [deleteExtraHosts, hnmem, hg] at hdel
      | ok i0 =>
        cases hdo : env.DeleteObject "hosts" i0 with
        | error e => simp [deleteExtraHosts, hnmem, hg, hdo] at hdel
        | ok uu =>
          obtain ⟨tr2, r2, hrec⟩ : ∃ a b, deleteExtraHosts env names rest = (a, b) :=
            ⟨_, _, rfl⟩
          simp only [deleteExtraHosts, if_neg hcb, hg, hdo, hrec, Prod.mk.injEq] at hdel
          obtain ⟨htr, hr2⟩ := hdel
          subst htr
          subst hr2
          have happ : applyHostOp st (AwxOp.delete "hosts" i0) =
              (st.1.filter (deleteHostPred i0), st.2) := by
            simp [applyHostOp]
          rw [applyHostOps_cons, happ]
          obtain ⟨ihPres, ihSub, ihComp⟩ :=
            ih (st.1.filter (deleteHostPred i0), st.2) tr2 u hrec
          refine ⟨?_, ?_, ?_⟩
          · intro h hh hno
            have hne0 : getObjectID h ≠ Except.ok i0 :=
              hno (n, hobj) (List.mem_cons_self _ _) hnmem i0 hg
            have hmem2 : h ∈ st.1.filter (deleteHostPred i0) :=
              List.mem_filter.mpr ⟨hh, deleteHostPred_of_ne i0 h hne0⟩
            exact ihPres h hmem2
              (fun p hp hp1 i hpi => hno p (List.mem_cons_of_mem _ hp) hp1 i hpi)
          · intro h hh
            exact (List.mem_filter.mp (ihSub h hh)).1
          · intro p hp hp1 i hpi h hh
            rcases List.mem_cons.mp hp with heq | hpr
            · have hieq : i = i0 := by
                rw [heq] at hpi
                exact (Except.ok.inj (hg.symm.trans hpi)).symm
              rw [hieq]
              exact deleteHostPred_mem_filter i0 _ h (ihSub h hh)
            · exact ihComp p hpr hp1 i hpi h hh

/-- Helper: the create-or-update phase of `EnsureInventory` only ever
addresses the inventories endpoint. -/
theorem ensureInventoryObject_endpoints (env : AwxEnv) (iv : InventorySpec)
    (invOpt : Option Obj) :
    ∀ op ∈ (ensureInventoryObject env iv invOpt).1, opEndpoint op = "inventories" := by
  intro op hop
  unfold ensureInventoryObject at hop
  split at hop
  · split at hop
    · simp only [List.mem_cons, List.not_mem_nil, or_false] at hop; subst hop; rfl
    · split_ifs at hop <;>
        (simp only [List.mem_cons, List.not_mem_nil, or_false] at hop; subst hop; rfl)
  · split at hop
    · simp at hop
    · split at hop <;>
        (simp only [List.mem_cons, List.not_mem_nil, or_false] at hop; subst hop; rfl)

/-- Helper: the create-or-update phase of `EnsureInventory` leaves every host
set unchanged. -/
theorem ensureInventoryObject_frame (env : AwxEnv) (iv : InventorySpec)
    (invOpt : Option Obj) (trE : List AwxOp) (r : Except String Obj)
    (heq : ensureInventoryObject env iv invOpt = (trE, r)) (st : List Obj × Int) :
    applyHostOps trE st = st := by
  refine applyHostOps_frame trE st ?_
  intro op hop
  have h1 := ensureInventoryObject_endpoints env iv invOpt op (by rw [heq]; exact hop)
  rw [h1]
  decide

/-- Helper: a successful `EnsureInventory` with declared hosts decomposes into
the find, the inventory create-or-update, the host listing, the upsert loop
and the pruning loop, all successful. -/
theorem EnsureInventory_decompose (env : AwxEnv) (iv : InventorySpec) (tr : List AwxOp)
    (inv : Obj) (hne : iv.hosts ≠ [])
    (hEns : EnsureInventory env iv = (tr, Except.ok inv)) :
    ∃ invOpt trE invId hs2 trU trD,
      env.FindObjectByName "inventories" iv.name = Except.ok invOpt ∧
      ensureInventoryObject env iv invOpt = (trE, Except.ok inv) ∧
      getObjectID inv = Except.ok invId ∧
      env.ListObjects (hostsEndpoint invId) = Except.ok hs2 ∧
      upsertHosts env invId (buildHostMap hs2) iv.hosts = (trU, Except.ok ()) ∧
      deleteExtraHosts env (iv.hosts.map HostSpec.name) (buildHostMap hs2) =
        (trD, Except.ok ()) ∧
      tr = AwxOp.find "inventories" iv.name ::
        (trE ++ (AwxOp.list (hostsEndpoint invId) :: (trU ++ trD))) := by
  unfold EnsureInventory at hEns
  split at hEns
  · simp at hEns
  · rename_i invOpt hfind
    split at hEns
    · rename_i trE e heqE
      simp at hEns
    · rename_i trE inventory heqE
      split at hEns
      · rename_i e heqID
        simp at hEns
      · rename_i invId heqID
        rw [if_pos (List.length_pos.mpr hne)] at hEns
        split at hEns
        · rename_i tr2 e heqR
          simp at hEns
        · rename_i tr2 uu heqR
          simp only [Prod.mk.injEq] at hEns
          obtain ⟨htr, hinv⟩ := hEns
          have hinv2 : inventory = inv := Except.ok.inj hinv
          subst hinv2
          unfold reconcileHosts at heqR
          split at heqR
          · simp at heqR
          · rename_i hs2 heqL
            split at heqR
            · rename_i trU e heqU
              simp at heqR
            · rename_i trU uU heqU
              split at heqR
              · rename_i trD e heqD
                simp at heqR
              · rename_i trD uD heqD
                simp only [Prod.mk.injEq] at heqR
                obtain ⟨htr2, -⟩ := heqR
                refine ⟨invOpt, trE, invId, hs2, trU, trD, hfind, heqE, heqID, heqL,
                  ?_, ?_, ?_⟩
                · cases uU
                  exact heqU
                · cases uD
                  exact heqD
                · rw [← htr, ← htr2]

/-- C1: with a non-empty declared host list, a successful `EnsureInventory`
leaves the remote host set of the inventory mirroring the declared list
exactly.  Under a well-formed remote host listing (every host has a string
name and a valid id, names and ids are unique, ids lie below the fresh
counter) and distinct declared names: every declared host is present
afterwards with exactly the written fields — updated in place under the
matched existing host's id when its name matched, created under a fresh id
otherwise —, every remaining host's name is a declared name, and every
existing host whose name is not declared has been deleted. -/
theorem C1_host_mirror (env : AwxEnv) (iv : InventorySpec) (tr : List AwxOp) (inv : Obj)
    (invId : Int) (hs : List Obj) (nid : Int)
    (hne : iv.hosts ≠ [])
    (hEns : EnsureInventory env iv = (tr, Except.ok inv))
    (hid : getObjectID inv = Except.ok invId)
    (hlist : env.ListObjects (hostsEndpoint invId) = Except.ok hs)
    (hname : ∀ h ∈ hs, ∃ n, getStr h "name" = some n)
    (hnodupN : (hostNames hs).Nodup)
    (hids : ∀ h ∈ hs, ∃ i, getObjectID h = Except.ok i ∧ i < nid)
    (hnodupI : (hostIds hs).Nodup)
    (hnodupD : (iv.hosts.map HostSpec.name).Nodup) :
    (∀ d ∈ iv.hosts, ∃ h ∈ (applyHostOps tr (hs, nid)).1, hostFields h invId d ∧
       (∀ h0, lookupKey (buildHostMap hs) d.name = some h0 →
          getObjectID h = getObjectID h0) ∧
       (lookupKey (buildHostMap hs) d.name = none →
          ∃ i, getObjectID h = Except.ok i ∧ nid ≤ i)) ∧
    (∀ h ∈ (applyHostOps tr (hs, nid)).1, ∃ d ∈ iv.hosts,
       getStr h "name" = some d.name) ∧
    (∀ h ∈ hs, ∀ n, getStr h "name" = some n → n ∉ iv.hosts.map HostSpec.name →
       h ∉ (applyHostOps tr (hs, nid)).1) := by
  obtain ⟨invOpt, trE, invId2, hs2, trU, trD, hfind, heqE, heqID, heqL, heqU, heqD, htr⟩ :=
    EnsureInventory_decompose env iv tr inv hne hEns
  have hinv2 : invId2 = invId := Except.ok.inj (heqID.symm.trans hid)
  rw [hinv2] at heqL heqU htr
  rw [hlist] at heqL
  have hhs2 : hs2 = hs := (Except.ok.inj heqL).symm
  rw [hhs2] at heqU heqD
  subst htr
  have hstep : applyHostOps (AwxOp.find "inventories" iv.name ::
      (trE ++ (AwxOp.list (hostsEndpoint invId) :: (trU ++ trD)))) (hs, nid) =
      applyHostOps trD (applyHostOps trU (hs, nid)) := by
    rw [applyHostOps_cons]
    have h0 : applyHostOp (hs, nid) (AwxOp.find "inventories" iv.name) = (hs, nid) := rfl
    rw [h0, applyHostOps_append, ensureInventoryObject_frame env iv invOpt trE _ heqE,
      applyHostOps_cons]
    have h1 : applyHostOp (hs, nid) (AwxOp.list (hostsEndpoint invId)) = (hs, nid) := rfl
    rw [h1, applyHostOps_append]
  rw [hstep]
  have Hmap : ∀ n h, lookupKey (buildHostMap hs) n = some h →
      ∃ i, getObjectID h = Except.ok i ∧ i < (hs, nid).2 ∧
        ∃ h2 ∈ (hs, nid).1, getObjectID h2 = Except.ok i := by
    intro n h hl
    obtain ⟨hmem, -⟩ := buildHostMap_lookup hs n h hl
    obtain ⟨i, hi, hlt⟩ := hids h hmem
    exact ⟨i, hi, hlt, h, hmem, hi⟩
  have Hinj : ∀ n1 n2 h1 h2 i, lookupKey (buildHostMap hs) n1 = some h1 →
      lookupKey (buildHostMap hs) n2 = some h2 → getObjectID h1 = Except.ok i →
      getObjectID h2 = Except.ok i → n1 = n2 := by
    intro n1 n2 h1 h2 i hl1 hl2 hi1 hi2
    obtain ⟨hm1, hn1⟩ := buildHostMap_lookup hs n1 h1 hl1
    obtain ⟨hm2, hn2⟩ := buildHostMap_lookup hs n2 h2 hl2
    have he : h1 = h2 := hostIds_inj hs hnodupI h1 hm1 h2 hm2 i hi1 hi2
    rw [he] at hn1
    exact Option.some.inj (hn1.symm.trans hn2)
  obtain ⟨p1Le, p1Pres, p1Orig, p1Decl⟩ :=
    upsertHosts_apply env invId (buildHostMap hs) iv.hosts (hs, nid) trU () heqU
      hnodupD Hmap Hinj
  obtain ⟨p2Pres, p2Sub, p2Comp⟩ :=
    deleteExtraHosts_apply env (iv.hosts.map HostSpec.name) (buildHostMap hs)
      (applyHostOps trU (hs, nid)) trD () heqD
  have hpruned : ∀ h ∈ hs, ∀ n, getStr h "name" = some n →
      n ∉ iv.hosts.map HostSpec.name →
      h ∉ (applyHostOps trD (applyHostOps trU (hs, nid))).1 := by
    intro h hmem n hn hnot hfin
    have huniq : ∀ h2 ∈ hs, getStr h2 "name" = some n → h2 = h :=
      fun h2 hh2 hn2 => hostNames_inj hs hnodupN h2 hh2 h hmem n hn2 hn
    have hlookS : lookupKey (buildHostMap hs) n = some h :=
      buildHostMap_lookup_self hs h n hmem hn huniq
    have hpmem : (n, h) ∈ buildHostMap hs := lookupKey_mem _ _ _ hlookS
    obtain ⟨i, hi, -⟩ := hids h hmem
    exact p2Comp (n, h) hpmem hnot i hi h hfin hi
  refine ⟨?_, ?_, hpruned⟩
  · intro d hd
    obtain ⟨h, hh1, hf, hdis⟩ := p1Decl d hd
    have hsurv : h ∈ (applyHostOps trD (applyHostOps trU (hs, nid))).1 := by
      refine p2Pres h hh1 ?_
      intro p hp hp1 i hpi habs
      obtain ⟨hpmem, hpname⟩ := buildHostMap_mem hs p hp
      rcases hdis with ⟨hm, hlm, hide⟩ | ⟨-, i0, hi0, hge⟩
      · obtain ⟨hmm, hmn⟩ := buildHostMap_lookup hs d.name hm hlm
        have hmi : getObjectID hm = Except.ok i := hide.symm.trans habs
        have heq2 : hm = p.2 := hostIds_inj hs hnodupI hm hmm p.2 hpmem i hmi hpi
        rw [heq2] at hmn
        have hpn : p.1 = d.name := Option.some.inj (hpname.symm.trans hmn)
        exact hp1 (hpn ▸ List.mem_map_of_mem HostSpec.name hd)
      · obtain ⟨ip, hip, hlt⟩ := hids p.2 hpmem
        have hge2 : nid ≤ i0 := hge
        have h1 : i0 = i := Except.ok.inj (hi0.symm.trans habs)
        have h2 : ip = i := Except.ok.inj (hip.symm.trans hpi)
        omega
    refine ⟨h, hsurv, hf, ?_, ?_⟩
    · intro h0 hl0
      rcases hdis with ⟨hm, hlm, hide⟩ | ⟨hnone, -⟩
      · have heq0 : hm = h0 := Option.some.inj (hlm.symm.trans hl0)
        rw [← heq0]
        exact hide
      · rw [hnone] at hl0
        exact absurd hl0 (by simp)
    · intro hnone2
      rcases hdis with ⟨hm, hlm, -⟩ | ⟨-, i0, hi0, hge⟩
      · rw [hnone2] at hlm
        exact absurd hlm (by simp)
      · exact ⟨i0, hi0, hge⟩
  · intro h hfin
    have hmem1 := p2Sub h hfin
    rcases p1Orig h hmem1 with hmem0 | ⟨d, hd, hf⟩
    · obtain ⟨n, hn⟩ := hname h hmem0
      by_cases hdecl : n ∈ iv.hosts.map HostSpec.name
      · obtain ⟨d, hd, hdn⟩ := List.mem_map.mp hdecl
        exact ⟨d, hd, by rw [hn, hdn]⟩
      · exact absurd hfin (hpruned h hmem0 n hn hdecl)
    · exact ⟨d, hd, (hostFields_getStr h invId d hf).1⟩

/-- C1 witness: against a remote API where inventory "I1" (id 5) holds the
hosts "h1" (id 101) and "h2" (id 102), redeclaring "I1" with only "h1"
updates "h1" in place, deletes "h2", and leaves the host set mirroring the
declared list exactly. -/
theorem C1_host_mirror_witness :
    c1Iv.hosts ≠ [] ∧
    EnsureInventory c1Env c1Iv = (c1Tr, Except.ok c1Inv) ∧
    ((∀ d ∈ c1Iv.hosts, ∃ h ∈ (applyHostOps c1Tr (c1Hosts, 200)).1,
        hostFields h 5 d ∧
        (∀ h0, lookupKey (buildHostMap c1Hosts) d.name = some h0 →
           getObjectID h = getObjectID h0) ∧
        (lookupKey (buildHostMap c1Hosts) d.name = none →
           ∃ i, getObjectID h = Except.ok i ∧ (200 : Int) ≤ i)) ∧
     (∀ h ∈ (applyHostOps c1Tr (c1Hosts, 200)).1, ∃ d ∈ c1Iv.hosts,
        getStr h "name" = some d.name) ∧
     (∀ h ∈ c1Hosts, ∀ n, getStr h "name" = some n →
        n ∉ c1Iv.hosts.map HostSpec.name →
        h ∉ (applyHostOps c1Tr (c1Hosts, 200)).1)) := by
  have hEns : EnsureInventory c1Env c1Iv = (c1Tr, Except.ok c1Inv) := rfl
  refine ⟨List.cons_ne_nil _ _, hEns, ?_⟩
  refine C1_host_mirror c1Env c1Iv c1Tr c1Inv 5 c1Hosts 200
    (List.cons_ne_nil _ _) hEns rfl rfl ?_ (by decide) ?_ (by decide) (by decide)
  · intro h hh
    rcases List.mem_cons.mp hh with heq | hh2
    · exact ⟨"h1", by rw [heq]; rfl⟩
    rcases List.mem_cons.mp hh2 with heq | hh3
    · exact ⟨"h2", by rw [heq]; rfl⟩
    · exact absurd hh3 (List.not_mem_nil _)
  · intro h hh
    rcases List.mem_cons.mp hh with heq | hh2
    · exact ⟨101, by rw [heq]; rfl, by decide⟩
    rcases List.mem_cons.mp hh2 with heq | hh3
    · exact ⟨102, by rw [heq]; rfl, by decide⟩
    · exact absurd hh3 (List.not_mem_nil _)

end AWX
